import Mathlib

/-!
Verification of the content-preparation and batch-dispatch pipeline of the
local-agent repository (Go). The Go sources are shallowly embedded:

* Go strings are Lean `String`s; `len(s)` on a Go string counts bytes and is
  embedded as `String.utf8ByteSize`.
* Go slices become `List`s; Go maps become association lists with
  insert-or-replace semantics (`mapInsert` / `mapLookup`), matching the
  last-write-wins behaviour of map assignment.
* Nil-able `*types.FileInfo` pointers become `Option FileInfo`.
* Compiled regular expressions (`*regexp.Regexp`) are abstracted as opaque
  matcher functions `String → Bool` together with an opaque
  `ReplaceAllString · "[REDACTED]"` function `String → String`; the scanning
  and redaction loops around them are embedded faithfully.
* `float64` confidence constants are embedded as exact rationals.
* The worker pool of `processConcurrently` is embedded by quantifying over
  the arrival order of results: the results channel delivers some
  permutation of the per-unit outcomes, and theorems quantify over that
  permutation.

Each embedded definition names the Go function it is translated from.

-/

namespace LocalAgent

/-! ## Go string primitives -/

/-- Byte length of a string: Go `len(s)` on a `string` counts UTF-8 bytes. -/
def goLen (s : String) : Nat := s.utf8ByteSize

/-- Splitting a character list at newline characters, Go
`strings.Split(s, "\n")` semantics: the result always has one more element
than the number of separators, so the empty string splits to `[""]`. -/
def splitNlChars : List Char → List (List Char)
  | [] => [[]]
  | c :: rest =>
    let r := splitNlChars rest
    if c = '\n' then [] :: r
    else
      match r with
      | [] => [[c]]
      | g :: gs => (c :: g) :: gs

/-- Go `strings.Split(s, "\n")`. -/
def goSplitLines (s : String) : List String :=
  (splitNlChars s.data).map (fun cs => String.mk cs)

/-- Go `strings.Join(xs, sep)`. -/
def goJoin (sep : String) : List String → String
  | [] => ""
  | x :: rest => rest.foldl (fun acc y => acc ++ sep ++ y) x

/-- ASCII whitespace test used to embed Go `strings.TrimSpace`
(`unicode.IsSpace` restricted to the ASCII range; no source content in the
claims involves non-ASCII whitespace). -/
def isSpaceGo (c : Char) : Bool :=
  c = ' ' || c = '\t' || c = '\n' || c = '\r' || c = '\x0b' || c = '\x0c'

/-- Go `strings.TrimSpace`. -/
def goTrimSpace (s : String) : String :=
  String.mk (((s.data.dropWhile isSpaceGo).reverse.dropWhile isSpaceGo).reverse)

/-- Go `strings.HasPrefix(s, p)`. -/
def goHasPfx (s p : String) : Bool := p.data.isPrefixOf s.data

/-- Go `strings.Contains(hay, needle)`. -/
def goContains (hay needle : String) : Bool :=
  hay.data.tails.any (fun t => needle.data.isPrefixOf t)

/-- Go `strings.ToLower` (character-wise lowering). -/
def lowerString (s : String) : String := String.mk (s.data.map Char.toLower)

/-- Go `strings.Count(s, "\n")` specialised to a single character. -/
def countChar (s : String) (c : Char) : Nat := s.data.count c

/-! ## Go map embedding (association list, insert-or-replace) -/

/-- Go map assignment `m[k] = v`: replace the binding in place if the key is
present, otherwise append it. -/
def mapInsert {κ ν : Type} [DecidableEq κ] : List (κ × ν) → κ → ν → List (κ × ν)
  | [], k, v => [(k, v)]
  | p :: rest, k, v =>
    if p.1 = k then (k, v) :: rest else p :: mapInsert rest k v

/-- Go map read `m[k]` returning `none` when the key is absent. -/
def mapLookup {κ ν : Type} [DecidableEq κ] (m : List (κ × ν)) (k : κ) : Option ν :=
  (m.find? (fun p => p.1 = k)).map (fun p => p.2)

/-! ## Data model (`types` package, part_011) -/

/-- `types.SecurityViolation`.  The `float64` confidence is embedded as an
exact rational. -/
structure SecurityViolation where
  file : String
  line : Nat
  vtype : String
  pattern : String
  description : String
  confidence : Rat
  deriving Repr, DecidableEq, Inhabited

/-- `types.FileChunk`.  In Go `Content` is the chunk's lines joined with
`"\n"`; since the lines produced by the scanner never contain a newline the
join is lossless, and the content is carried as its line list
`contentLines` (the joined Go string is `goJoin "\n" contentLines`). -/
structure FileChunk where
  index : Nat
  startLine : Nat
  endLine : Nat
  startOffset : Nat
  endOffset : Nat
  contentLines : List String
  tokenCount : Nat
  deriving Repr, DecidableEq, Inhabited

/-- `types.FileInfo`.  `Category` and `Type` are Go string-typed enums and
stay strings ("small"/"medium"/"large", "text"/"binary"/...).  `TokenCount`
is a non-negative estimate and is carried as `Nat`; `Size` is `int64`. -/
structure FileInfo where
  path : String
  relPath : String
  size : Int
  category : String
  ftype : String
  extension : String
  isReadable : Bool
  isSensitive : Bool
  violations : List SecurityViolation
  tokenCount : Nat
  content : String
  summary : String
  chunks : List FileChunk
  deriving Repr, DecidableEq, Inhabited

/-- `types.AnalysisResponse` (the aggregated result).  `FileTokens` is a Go
map, embedded as an association list built with `mapInsert`; the zero value
of the field (a nil map, as in `processSequentially`) is `[]`.  `Duration`
is nanoseconds.  The unused `Findings`/`Suggestions` fields are omitted. -/
structure AnalysisResponse where
  response : String
  model : String
  tokensUsed : Nat
  fileTokens : List (String × Nat)
  duration : Nat
  deriving Repr, DecidableEq, Inhabited

/-- `config.ChunkingConfig`. -/
structure ChunkingConfig where
  strategy : String
  chunkSize : Nat
  overlap : Nat
  deriving Repr, DecidableEq, Inhabited

/-! ## Token estimator (`llm.Tokenizer`, part_006) -/

/-- `Tokenizer.EstimateTokensSimple`: `len(text) / 4`, where Go `len`
counts bytes. -/
def EstimateTokensSimple (text : String) : Nat := goLen text / 4

/-! ## Chunker (`analyzer` package, chunker half of analyzer/analyzer.go) -/

/-- `Chunker.estimateTokens`: the chunker's tokenizer field is always
non-nil (set by `NewChunker`), so this is `EstimateTokensSimple`. -/
def chunkerEstimateTokens (text : String) : Nat := EstimateTokensSimple text

/-- Token estimate of a chunk's accumulated lines: the Go code estimates
`strings.Join(currentLines, "\n")`. -/
def estJoined (ls : List String) : Nat := chunkerEstimateTokens (goJoin "\n" ls)

/-- Byte length of a chunk's joined content, Go `len(content)`. -/
def joinedLen (ls : List String) : Nat := goLen (goJoin "\n" ls)

/-- Loop body of `Chunker.chunkByLines`.  Arguments mirror the Go locals:
remaining scanner lines, `currentLines`, `lineNum`, `chunkStartLine`,
`offset`, and the accumulated `chunks`. -/
def chunkByLinesLoop (cfg : ChunkingConfig) :
    List String → List String → Nat → Nat → Nat → List FileChunk → List FileChunk
  | [], currentLines, lineNum, chunkStartLine, offset, chunks =>
    -- add remaining lines as final chunk
    if currentLines.length > 0 then
      chunks ++ [{ index := chunks.length
                   startLine := chunkStartLine
                   endLine := lineNum - 1
                   startOffset := offset
                   endOffset := offset + joinedLen currentLines
                   contentLines := currentLines
                   tokenCount := estJoined currentLines }]
    else chunks
  | line :: rest, currentLines, lineNum, chunkStartLine, offset, chunks =>
    let currentLines := currentLines ++ [line]
    if currentLines.length ≥ cfg.chunkSize then
      let chunk : FileChunk :=
        { index := chunks.length
          startLine := chunkStartLine
          endLine := lineNum
          startOffset := offset
          endOffset := offset + joinedLen currentLines
          contentLines := currentLines
          tokenCount := estJoined currentLines }
      let chunks := chunks ++ [chunk]
      let overlapSize := min cfg.overlap currentLines.length
      chunkByLinesLoop cfg rest
        (currentLines.drop (currentLines.length - overlapSize))
        (lineNum + 1) (lineNum - overlapSize + 1) chunk.endOffset chunks
    else
      chunkByLinesLoop cfg rest currentLines (lineNum + 1) chunkStartLine offset chunks

/-- `Chunker.chunkByLines`, as a function of the scanner's line sequence
(file I/O is resolved to the list of lines read). -/
def chunkByLines (cfg : ChunkingConfig) (lines : List String) : List FileChunk :=
  chunkByLinesLoop cfg lines [] 1 1 0 []

/-- `Chunker.calculateOverlapLines`: walk backward from the end of the
chunk accumulating lines while the running token total is below the
configured overlap. -/
def calculateOverlapLinesLoop (cfg : ChunkingConfig) :
    List String → Nat → Nat → Nat
  | [], _, overlapLines => overlapLines
  | l :: rest, currentTokens, overlapLines =>
    if currentTokens < cfg.overlap then
      calculateOverlapLinesLoop cfg rest (currentTokens + chunkerEstimateTokens l)
        (overlapLines + 1)
    else overlapLines

/-- `Chunker.calculateOverlapLines` (the Go loop runs from the last index
downward, i.e. over the reversed line list). -/
def calculateOverlapLines (cfg : ChunkingConfig) (lines : List String) : Nat :=
  calculateOverlapLinesLoop cfg lines.reverse 0 0

/-- Loop body of `Chunker.chunkByTokens` over the lines of
`strings.Split(content, "\n")`. -/
def chunkByTokensLoop (cfg : ChunkingConfig) :
    List String → List String → Nat → Nat → Nat → Nat → List FileChunk → List FileChunk
  | [], currentChunk, currentTokens, chunkStartLine, lineNum, offset, chunks =>
    if currentChunk.length > 0 then
      chunks ++ [{ index := chunks.length
                   startLine := chunkStartLine
                   endLine := lineNum - 1
                   startOffset := offset
                   endOffset := offset + joinedLen currentChunk
                   contentLines := currentChunk
                   tokenCount := currentTokens }]
    else chunks
  | line :: rest, currentChunk, currentTokens, chunkStartLine, lineNum, offset, chunks =>
    let lineTokens := chunkerEstimateTokens line
    if currentTokens + lineTokens > cfg.chunkSize ∧ currentChunk.length > 0 then
      let chunk : FileChunk :=
        { index := chunks.length
          startLine := chunkStartLine
          endLine := lineNum - 1
          startOffset := offset
          endOffset := offset + joinedLen currentChunk
          contentLines := currentChunk
          tokenCount := currentTokens }
      let chunks := chunks ++ [chunk]
      let overlapLines := calculateOverlapLines cfg currentChunk
      let currentChunk := currentChunk.drop (currentChunk.length - overlapLines)
      let currentTokens := estJoined currentChunk
      chunkByTokensLoop cfg rest (currentChunk ++ [line]) (currentTokens + lineTokens)
        (lineNum - overlapLines) (lineNum + 1) chunk.endOffset chunks
    else
      chunkByTokensLoop cfg rest (currentChunk ++ [line]) (currentTokens + lineTokens)
        chunkStartLine (lineNum + 1) offset chunks

/-- `Chunker.chunkByTokens`, as a function of the split line list. -/
def chunkByTokens (cfg : ChunkingConfig) (lines : List String) : List FileChunk :=
  chunkByTokensLoop cfg lines [] 0 1 1 0 []

/-- `Chunker.isLogicalBoundary`. -/
def isLogicalBoundary (line : String) : Bool :=
  let trimmed := goTrimSpace line
  if trimmed = "" then true
  else
    let kws := ["func ", "def ", "function ", "class ",
                "public ", "private ", "protected ",
                "async ", "export "]
    if kws.any (fun k => goHasPfx trimmed k) then true
    else goHasPfx trimmed "//" || goHasPfx trimmed "#" || goHasPfx trimmed "/*"

/-- Loop body of `Chunker.chunkSmart`; the lookahead `lines[i+1]` is the
head of the remaining list. -/
def chunkSmartLoop (cfg : ChunkingConfig) :
    List String → List String → Nat → Nat → Nat → Nat → List FileChunk → List FileChunk
  | [], currentChunk, currentTokens, chunkStartLine, lineNum, offset, chunks =>
    if currentChunk.length > 0 then
      chunks ++ [{ index := chunks.length
                   startLine := chunkStartLine
                   endLine := lineNum - 1
                   startOffset := offset
                   endOffset := offset + joinedLen currentChunk
                   contentLines := currentChunk
                   tokenCount := currentTokens }]
    else chunks
  | line :: rest, currentChunk, currentTokens, chunkStartLine, lineNum, offset, chunks =>
    let lineTokens := chunkerEstimateTokens line
    let shouldChunk := currentTokens + lineTokens > cfg.chunkSize ∧ currentChunk.length > 0
    let boundary := isLogicalBoundary line ||
      (match rest with
       | next :: _ => isLogicalBoundary next
       | [] => false)
    if shouldChunk ∧ boundary then
      let chunk : FileChunk :=
        { index := chunks.length
          startLine := chunkStartLine
          endLine := lineNum - 1
          startOffset := offset
          endOffset := offset + joinedLen currentChunk
          contentLines := currentChunk
          tokenCount := currentTokens }
      let chunks := chunks ++ [chunk]
      chunkSmartLoop cfg rest [line] lineTokens lineNum (lineNum + 1) chunk.endOffset chunks
    else
      chunkSmartLoop cfg rest (currentChunk ++ [line]) (currentTokens + lineTokens)
        chunkStartLine (lineNum + 1) offset chunks

/-- `Chunker.chunkSmart`, as a function of the split line list. -/
def chunkSmart (cfg : ChunkingConfig) (lines : List String) : List FileChunk :=
  chunkSmartLoop cfg lines [] 0 1 1 0 []

/-- `Chunker.ChunkFile`: strategy dispatch, defaulting to by-lines. -/
def ChunkFile (cfg : ChunkingConfig) (lines : List String) : List FileChunk :=
  if lowerString cfg.strategy = "lines" then chunkByLines cfg lines
  else if lowerString cfg.strategy = "tokens" then chunkByTokens cfg lines
  else if lowerString cfg.strategy = "smart" then chunkSmart cfg lines
  else chunkByLines cfg lines

/-! ## Security validator (`security` package, part_007)

A compiled `*regexp.Regexp` is embedded as an opaque `SecretPattern`: its
source text, its `MatchString` test, and its
`ReplaceAllString(s, "[REDACTED]")` action.  The four PII regexes compiled

locally in `ScanForPII` are likewise carried as matcher fields. -/

/-- One compiled secret regex of `initializeSecretPatterns`. -/
structure SecretPattern where
  source : String
  matchString : String → Bool
  replaceAll : String → String

/-- `security.Validator`.  `DetectSensitiveFile` is the path-based
sensitivity test (pure string inspection of the path). -/
structure Validator where
  secretPatterns : List SecretPattern
  emailMatch : String → Bool
  ssnMatch : String → Bool
  ccMatch : String → Bool
  phoneMatch : String → Bool
  DetectSensitiveFile : String → Bool

/-- Inner pattern loop of `Validator.ScanForSecrets` for one line. -/
def scanLineSecrets (v : Validator) (filePath line : String) (lineNum : Nat) :
    List SecurityViolation :=
  v.secretPatterns.filterMap (fun p =>
    if p.matchString line then
      some { file := filePath
             line := lineNum + 1
             vtype := "secret"
             pattern := p.source
             description := "Potential secret or credential detected"
             confidence := 0.8 }
    else none)

/-- Line loop of `Validator.ScanForSecrets`. -/
def scanForSecretsLoop (v : Validator) (filePath : String) :
    List String → Nat → List SecurityViolation
  | [], _ => []
  | line :: rest, lineNum =>
    scanLineSecrets v filePath line lineNum ++ scanForSecretsLoop v filePath rest (lineNum + 1)

/-- `Validator.ScanForSecrets`. -/
def ScanForSecrets (v : Validator) (content filePath : String) : List SecurityViolation :=
  scanForSecretsLoop v filePath (goSplitLines content) 0

/-- Inner checks of `Validator.ScanForPII` for one line (email, SSN,
credit card, phone, in source order). -/
def scanLinePII (v : Validator) (filePath line : String) (lineNum : Nat) :
    List SecurityViolation :=
  (if v.emailMatch line then
    [{ file := filePath, line := lineNum + 1, vtype := "pii", pattern := "email"
       description := "Email address detected", confidence := 0.9 }] else []) ++
  (if v.ssnMatch line then
    [{ file := filePath, line := lineNum + 1, vtype := "pii", pattern := "ssn"
       description := "Potential Social Security Number detected", confidence := 0.7 }] else []) ++
  (if v.ccMatch line then
    [{ file := filePath, line := lineNum + 1, vtype := "pii", pattern := "credit_card"
       description := "Potential credit card number detected", confidence := 0.6 }] else []) ++
  (if v.phoneMatch line then
    [{ file := filePath, line := lineNum + 1, vtype := "pii", pattern := "phone"
       description := "Phone number detected", confidence := 0.8 }] else [])

/-- Line loop of `Validator.ScanForPII`. -/
def scanForPIILoop (v : Validator) (filePath : String) :
    List String → Nat → List SecurityViolation
  | [], _ => []
  | line :: rest, lineNum =>
    scanLinePII v filePath line lineNum ++ scanForPIILoop v filePath rest (lineNum + 1)

/-- `Validator.ScanForPII`. -/
def ScanForPII (v : Validator) (content filePath : String) : List SecurityViolation :=
  scanForPIILoop v filePath (goSplitLines content) 0

/-- `Validator.SanitizeContent`: apply every secret pattern's
`ReplaceAllString(·, "[REDACTED]")` in order. -/
def SanitizeContent (v : Validator) (content : String) : String :=
  v.secretPatterns.foldl (fun s p => p.replaceAll s) content

/-! ## Analyzer (`analyzer` package, analyzer/analyzer.go) -/

/-- `analyzer.detectLanguage`. -/
def detectLanguage (ext : String) : String :=
  if ext = ".go" then "Go" else if ext = ".py" then "Python"
  else if ext = ".js" then "JavaScript" else if ext = ".ts" then "TypeScript"
  else if ext = ".java" then "Java" else if ext = ".c" then "C"
  else if ext = ".cpp" then "C++" else if ext = ".h" then "C/C++ Header"
  else if ext = ".rs" then "Rust" else if ext = ".rb" then "Ruby"
  else if ext = ".php" then "PHP" else if ext = ".swift" then "Swift"
  else if ext = ".kt" then "Kotlin" else if ext = ".scala" then "Scala"
  else if ext = ".sh" then "Shell" else if ext = ".sql" then "SQL"
  else ""

/-- `analyzer.getLanguageIdentifier`. -/
def getLanguageIdentifier (ext : String) : String :=
  if ext = ".go" then "go" else if ext = ".py" then "python"
  else if ext = ".js" then "javascript" else if ext = ".ts" then "typescript"
  else if ext = ".java" then "java" else if ext = ".c" then "c"
  else if ext = ".cpp" then "cpp" else if ext = ".rs" then "rust"
  else if ext = ".rb" then "ruby" else if ext = ".php" then "php"
  else if ext = ".sh" then "bash" else if ext = ".sql" then "sql"
  else if ext = ".md" then "markdown" else if ext = ".json" then "json"
  else if ext = ".yaml" then "yaml" else if ext = ".yml" then "yaml"
  else if ext = ".xml" then "xml"
  else ""

/-- `for n := size / unit; n >= unit; n /= unit` loop of
`analyzer.formatFileSize`. -/
def formatFileSizeLoop (n div exp : Nat) : Nat × Nat :=
  if h : 1024 ≤ n then formatFileSizeLoop (n / 1024) (div * 1024) (exp + 1)
  else (div, exp)
  termination_by n
  decreasing_by exact Nat.div_lt_self (by omega) (by omega)

/-- One-decimal rendering of `size/div` used to embed the `%.1f` in
`analyzer.formatFileSize`; Go formats the `float64` quotient, this embeds
it as the exactly rounded (half-up) decimal.  No claim depends on summary
strings, so the float-rounding corner is noted rather than modelled. -/
def oneDecimal (size div : Nat) : String :=
  let t := (size * 10 + div / 2) / div
  toString (t / 10) ++ "." ++ toString (t % 10)

/-- `analyzer.formatFileSize`. -/
def formatFileSize (size : Int) : String :=
  if size < 1024 then toString size ++ " B"
  else
    let p := formatFileSizeLoop (size.toNat / 1024) 1024 0
    oneDecimal size.toNat p.1 ++ " " ++
      (["K", "M", "G", "T", "P", "E"].getD p.2 "") ++ "B"

/-- `Analyzer.generateSummary`. -/
def generateSummary (info : FileInfo) : String :=
  let parts :=
    ["File: " ++ info.relPath, "Type: " ++ info.ftype,
     "Size: " ++ formatFileSize info.size] ++
    (if info.extension ≠ "" then ["Extension: " ++ info.extension] else []) ++
    (let lang := detectLanguage info.extension
     if lang ≠ "" then ["Language: " ++ lang] else []) ++
    (if info.ftype = "text" ∧ info.content ≠ "" then
      ["Lines: " ++ toString (countChar info.content '\n' + 1)] else []) ++
    (if info.chunks.length > 0 then
      ["Chunks: " ++ toString info.chunks.length] else [])
  goJoin " | " parts

/-- `Analyzer.flagViolations` (the validator and record are always
non-nil in the embedding, so the source's nil guard never fires);
mutation of `info` is embedded as returning the updated record. -/
def flagViolations (v : Validator) (info : FileInfo) (content : String) : FileInfo :=
  let violations := ScanForSecrets v content info.path ++ ScanForPII v content info.path
  if violations.length > 0 then
    { info with isSensitive := true, violations := info.violations ++ violations }
  else info

/-- File-listing loop at the top of `Analyzer.PrepareForLLM`
(`file != nil && file.IsReadable && !file.IsSensitive`). -/
def fileListLoop : List (Option FileInfo) → List String
  | [] => []
  | none :: rest => fileListLoop rest
  | some f :: rest =>
    if f.isReadable && !f.isSensitive then f.relPath :: fileListLoop rest
    else fileListLoop rest

/-- Header assembly of `Analyzer.PrepareForLLM` (everything the builder
writes before the per-file content loop). -/
def prepHeader (fileList : List String) : String :=
  "# Project Files Summary\n\n" ++
  "Total files to analyze: " ++ toString fileList.length ++ "\n\n" ++
  "## File List:\n" ++
  String.join (fileList.map (fun n => "- " ++ n ++ "\n")) ++
  "\n---\n\n" ++
  "## File Contents:\n\n"

/-- Per-file content loop of `Analyzer.PrepareForLLM` in
analyzer/analyzer.go.  Returns the written string together with the list
of files whose content block was actually rendered (the instrumentation
used to state the budget invariant; it does not alter the string). -/
def prepLoop (v : Validator) (maxTokens : Nat) :
    List (Option FileInfo) → Nat → (String × List FileInfo)
  | [], _ => ("", [])
  | none :: rest, currentTokens => prepLoop v maxTokens rest currentTokens
  | some file :: rest, currentTokens =>
    if !file.isReadable then prepLoop v maxTokens rest currentTokens
    else if file.isSensitive then
      let r := prepLoop v maxTokens rest currentTokens
      ("### File: " ++ file.relPath ++ "\n" ++ "[SENSITIVE FILE - SKIPPED]\n\n" ++ r.1, r.2)
    else if currentTokens + file.tokenCount > maxTokens then
      -- break: the remaining files are not visited
      ("\n[Remaining files omitted due to token limit]\n", [])
    else
      let hdr := "### File: " ++ file.relPath ++ "\n"
      -- the second sensitivity test of the source (unreachable here) is kept verbatim
      if file.isSensitive then
        let r := prepLoop v maxTokens rest currentTokens
        (hdr ++ "[SENSITIVE FILE - SKIPPED]\n\n" ++ r.1, r.2)
      else if file.category = "small" ∨ file.category = "medium" then
        if file.content ≠ "" then
          let block := "```" ++ getLanguageIdentifier file.extension ++ "\n" ++
            SanitizeContent v file.content ++ "\n```\n\n"
          let r := prepLoop v maxTokens rest (currentTokens + file.tokenCount)
          (hdr ++ block ++ r.1, file :: r.2)
        else
          let r := prepLoop v maxTokens rest currentTokens
          (hdr ++ r.1, r.2)
      else if file.category = "large" then
        let block := "[Large file - " ++ file.summary ++ "]\n" ++
          "Available chunks: " ++ toString file.chunks.length ++ "\n" ++
          "Use chunk indices to request specific sections.\n\n"
        let r := prepLoop v maxTokens rest currentTokens
        (hdr ++ block ++ r.1, r.2)
      else
        let r := prepLoop v maxTokens rest currentTokens
        (hdr ++ r.1, r.2)

/-- `Analyzer.PrepareForLLM` (analyzer/analyzer.go version): header plus
content sections under the running token total. -/
def PrepareForLLM (v : Validator) (files : List (Option FileInfo)) (maxTokens : Nat) :
    String :=
  prepHeader (fileListLoop files) ++ (prepLoop v maxTokens files 0).1

/-- The files whose content `PrepareForLLM` admits (renders as a fenced
content block) under the running-total rule. -/
def admittedFiles (v : Validator) (files : List (Option FileInfo)) (maxTokens : Nat) :
    List FileInfo :=
  (prepLoop v maxTokens files 0).2

/-- `Detector.DetectFile` (analyzer/detector.go): `statSize` is the
outcome of `os.Stat` (`none` = error), `typeOutcome` the outcome of
`detectFileType`, `ext` the value of `filepath.Ext(path)`.  The record is
built exactly as in the source; in particular `Violations` starts empty
and `IsSensitive` starts false. -/
def DetectFile (smallBytes mediumBytes : Int) (statSize : Option Int)
    (typeOutcome : Except Unit String) (path ext : String) : Option FileInfo :=
  match statSize with
  | none => none
  | some size =>
    let category :=
      if size ≤ smallBytes then "small"
      else if size ≤ mediumBytes then "medium"
      else "large"
    let base : FileInfo :=
      { path := path, relPath := "", size := size, category := category,
        ftype := "", extension := ext, isReadable := false, isSensitive := false,
        violations := [], tokenCount := 0, content := "", summary := "", chunks := [] }
    match typeOutcome with
    | .error _ => some { base with ftype := "unknown", isReadable := false }
    | .ok t =>
      some { base with ftype := t,
                       isReadable := (t = "text" || t = "pdf" || t = "pcap") }

/-- `Analyzer.AnalyzeFile` (analyzer/analyzer.go), with file-system
effects resolved to explicit outcomes: `detectRes` is the `DetectFile`
result, `relRes` the `filepath.Rel` outcome (`none` = error, falling back
to `path`), `readRes` the `ReadContent(path, 0)` outcome, `chunkLines`
the scanner lines read by `ChunkFile` (`none` = chunking I/O error).
The Go `(info, err)` pair is `some (record, optional error message)`;
a nil record with an error is `none`. -/
def AnalyzeFileCore (v : Validator) (maxFileSizeBytes : Int) (ccfg : ChunkingConfig)
    (readRes : Option String) (chunkLns : Option (List String))
    (info2 : FileInfo) : FileInfo × Option String :=
  if !info2.isReadable then (info2, none)
  else if info2.size > maxFileSizeBytes then (info2, none)
  else if info2.category = "small" then
    match readRes with
    | none => (info2, some "failed to read content")
    | some content =>
      let info3 := { info2 with content := content,
                                tokenCount := EstimateTokensSimple content }
      (flagViolations v info3 content, none)
  else if info2.category = "medium" then
    match readRes with
    | none => (info2, some "failed to read content")
    | some content =>
      let info3 := { info2 with content := content,
                                tokenCount := EstimateTokensSimple content }
      let info4 := { info3 with summary := generateSummary info3 }
      (flagViolations v info4 content, none)
  else if info2.category = "large" then
    match readRes with
    | none => (info2, some "failed to read content")
    | some content =>
      let info3 := { info2 with content := content }
      let info4 := { info3 with summary := generateSummary info3 }
      match chunkLns with
      | none => (info4, some "failed to chunk file")
      | some lns =>
        let info5 := { info4 with chunks := ChunkFile ccfg lns }
        let info6 := { info5 with tokenCount := EstimateTokensSimple content }
        (flagViolations v info6 content, none)
  else (info2, none)

def AnalyzeFile (v : Validator) (maxFileSizeBytes : Int) (ccfg : ChunkingConfig)
    (detectRes : Option FileInfo) (relRes : Option String)
    (readRes : Option String) (chunkLns : Option (List String))
    (path : String) : Option (FileInfo × Option String) :=
  match detectRes with
  | none => none
  | some info0 =>
    let info1 :=
      if v.DetectSensitiveFile path then { info0 with isSensitive := true } else info0
    let info2 := { info1 with relPath := relRes.getD path }
    some (AnalyzeFileCore v maxFileSizeBytes ccfg readRes chunkLns info2)

/-! ## Batch dispatcher (main.go)

The backend collaborator `llmClient.Analyze(task, content, temperature)`
is an opaque deterministic function returning either an
`AnalysisResponse` or an error message.  The worker pool of
`processConcurrently` is embedded by making the order in which results
come off the results channel an explicit `arrival` list; theorems

constrain it to a permutation of the canonical per-unit outcomes. -/

/-- The backend collaborator contract (`OllamaClient.Analyze`). -/
def Backend : Type := String → String → Rat → Except String AnalysisResponse

def ansiGreen : String := "\x1b[32m"

def ansiReset : String := "\x1b[0m"

/-- `formatFileHeaderLine`. -/
def formatFileHeaderLine (fileName : String) : String :=
  "=== " ++ ansiGreen ++ fileName ++ ansiReset ++ " ==="

/-- `formatFileSection`. -/
def formatFileSection (fileName body : String) : String :=
  let trimmed := goTrimSpace body
  if trimmed = "" then "\n" ++ formatFileHeaderLine fileName
  else "\n" ++ formatFileHeaderLine fileName ++ "\n" ++ trimmed

/-- `formatFileErrorSection` (`%v` of the error renders its message). -/
def formatFileErrorSection (fileName err : String) : String :=
  "\n" ++ formatFileHeaderLine fileName ++ "\n" ++ "⚠️  FAILED: " ++ err

/-- `prepareBatches`: one single-file batch per readable file whose token
count does not exceed the limit. -/
def prepareBatches (files : List (Option FileInfo)) (tokenLimit : Nat) :
    List (List (Option FileInfo)) :=
  match files with
  | [] => []
  | none :: rest => prepareBatches rest tokenLimit
  | some file :: rest =>
    if !file.isReadable then prepareBatches rest tokenLimit
    else if file.tokenCount > tokenLimit then prepareBatches rest tokenLimit
    else [some file] :: prepareBatches rest tokenLimit

/-- `batch[0].RelPath` as read by both dispatch paths.  A Go program
panics on an empty batch or a nil first entry; batches built by
`prepareBatches` are always `[some f]`, and the fallback `""` models the
unreachable cases. -/
def batch0RelPath (batch : List (Option FileInfo)) : String :=
  match batch with
  | some f :: _ => f.relPath
  | _ => ""

/-- `processBatch`: render the batch through the Content Selector, reject
near-empty payloads, then call the backend with the per-file task. -/
def processBatch (be : Backend) (v : Validator) (tokenLimit : Nat)
    (temperature : Rat) (task : String) (batch : List (Option FileInfo)) :
    Except String AnalysisResponse :=
  let content := PrepareForLLM v batch tokenLimit
  if goLen content < 100 then .error "no valid content to analyze after PrepareForLLM"
  else
    let actualTask :=
      match batch with
      | [some f] => "Analyze the file \x27" ++ f.relPath ++ "\x27. " ++ task
      | _ => task
    be actualTask content temperature

/-- Loop of `processSequentially`: accumulates the ordered section list,
token total, duration total and first non-empty model id. -/
def seqLoop (P : List (Option FileInfo) → Except String AnalysisResponse) :
    List (List (Option FileInfo)) → List String → Nat → Nat → String →
    (List String × Nat × Nat × String)
  | [], acc, tt, td, m => (acc, tt, td, m)
  | b :: rest, acc, tt, td, m =>
    match P b with
    | .error e =>
      seqLoop P rest (acc ++ [formatFileErrorSection (batch0RelPath b) e]) tt td m
    | .ok r =>
      seqLoop P rest (acc ++ [formatFileSection (batch0RelPath b) r.response])
        (tt + r.tokensUsed) (td + r.duration) (if m = "" then r.model else m)

/-- `processSequentially` (main.go): one file at a time, in order.  Note
that the returned `AnalysisResponse` leaves `FileTokens` at its zero
value (nil map) and prepends no failure summary. -/
def processSequentially (be : Backend) (v : Validator) (tokenLimit : Nat)
    (temperature : Rat) (task : String)
    (batches : List (List (Option FileInfo))) : AnalysisResponse :=
  let out := seqLoop (processBatch be v tokenLimit temperature task) batches [] 0 0 ""
  { response := goJoin "\n" out.1
    model := out.2.2.2
    tokensUsed := out.2.1
    fileTokens := []
    duration := out.2.2.1 }

/-- Enumeration of the work queue: `batchNum` starts at 1. -/
def numberFrom {α : Type} (start : Nat) : List α → List (Nat × α)
  | [] => []
  | x :: rest => (start, x) :: numberFrom (start + 1) rest

/-- The canonical per-unit outcomes of `processConcurrently`: every job is
delivered exactly once to some worker, and each worker computes
`processBatch` on its unit; the pair carries the unit's `batchNum`. -/
def batchResults (be : Backend) (v : Validator) (tokenLimit : Nat)
    (temperature : Rat) (task : String)
    (batches : List (List (Option FileInfo))) :
    List (Nat × Except String AnalysisResponse) :=
  numberFrom 1 (batches.map (processBatch be v tokenLimit temperature task))

/-- The `fileNames` map of `processConcurrently`
(`fileNames[i+1] = batches[i][0].RelPath`; a missing key reads as `""`). -/
def fileNamesOf (batches : List (List (Option FileInfo))) (i : Nat) : String :=
  match batches.get? (i - 1) with
  | some b => batch0RelPath b
  | none => ""

/-- State of the result-collection loop of `processConcurrently`. -/
structure CollectState where
  fileResults : List (Nat × AnalysisResponse)
  fileTokens : List (String × Nat)
  totalTokens : Nat
  totalDuration : Nat
  model : String
  failedFiles : List (Nat × String)
  deriving Repr

/-- One iteration of the `for result := range results` collection loop. -/
def collectStep (fileNames : Nat → String) (s : CollectState)
    (r : Nat × Except String AnalysisResponse) : CollectState :=
  match r.2 with
  | .error e => { s with failedFiles := mapInsert s.failedFiles r.1 e }
  | .ok resp =>
    { s with fileResults := mapInsert s.fileResults r.1 resp
             fileTokens := mapInsert s.fileTokens (fileNames r.1) resp.tokensUsed
             totalTokens := s.totalTokens + resp.tokensUsed
             totalDuration := s.totalDuration + resp.duration
             model := if s.model = "" then resp.model else s.model }

def collectInit : CollectState :=
  { fileResults := [], fileTokens := [], totalTokens := 0, totalDuration := 0,
    model := "", failedFiles := [] }

/-- The collection loop over the arrival order of the results channel. -/
def collectResults (fileNames : Nat → String)
    (arrival : List (Nat × Except String AnalysisResponse)) : CollectState :=
  arrival.foldl (collectStep fileNames) collectInit

/-- The in-order aggregation loop (`for i := 1; i <= totalFiles; i++`). -/
def aggregateResponses (s : CollectState) (fileNames : Nat → String)
    (totalFiles : Nat) : List String :=
  (List.range totalFiles).filterMap (fun k =>
    let i := k + 1
    match mapLookup s.fileResults i with
    | some resp => some (formatFileSection (fileNames i) resp.response)
    | none =>
      match mapLookup s.failedFiles i with
      | some e => some (formatFileErrorSection (fileNames i) e)
      | none => none)

/-- `processConcurrently` (main.go): worker-pool dispatch.  `arrival` is
the order in which unit outcomes come off the results channel; the
scheduler guarantees it is a permutation of
`batchResults be v tokenLimit temperature task batches`, which theorems
take as a hypothesis. -/
def processConcurrently (be : Backend) (v : Validator) (tokenLimit : Nat)
    (temperature : Rat) (task : String)
    (batches : List (List (Option FileInfo)))
    (arrival : List (Nat × Except String AnalysisResponse)) : AnalysisResponse :=
  let totalFiles := batches.length
  let fileNames := fileNamesOf batches
  let s := collectResults fileNames arrival
  let allResponses := aggregateResponses s fileNames totalFiles
  let responseText :=
    if s.failedFiles.length > 0 then
      "⚠️  Warning: " ++ toString s.failedFiles.length ++ " of " ++
        toString totalFiles ++ " files failed (see details below)\n" ++
        goJoin "\n" allResponses
    else goJoin "\n" allResponses
  { response := responseText
    model := s.model
    tokensUsed := s.totalTokens
    fileTokens := s.fileTokens
    duration := s.totalDuration }

/-! ## Claim-side definitions and concrete fixtures -/

/-- Sum of the token counts of a list of file records. -/
def sumTokens (fs : List FileInfo) : Nat := (fs.map (fun f => f.tokenCount)).sum

/-- The first eligible (readable, non-sensitive, non-nil) file of a list,
in the claim's sense. -/
def firstEligible : List (Option FileInfo) → Option FileInfo
  | [] => none
  | none :: rest => firstEligible rest
  | some f :: rest =>
    if f.isReadable && !f.isSensitive then some f else firstEligible rest

/-- The eligible relative paths, phrased as the claim phrases them: the
relative path of every non-nil, readable, non-sensitive file, in order. -/
def fileListSpec (files : List (Option FileInfo)) : List String :=
  files.filterMap (fun o =>
    match o with
    | some f => if f.isReadable && !f.isSensitive then some f.relPath else none
    | none => none)

/-- A validator whose pattern bank matches nothing (all scans empty,
redaction is the identity); used for concrete evaluations. -/
def V0 : Validator :=
  { secretPatterns := []
    emailMatch := fun _ => false
    ssnMatch := fun _ => false
    ccMatch := fun _ => false
    phoneMatch := fun _ => false
    DetectSensitiveFile := fun _ => false }

/-- A readable, non-sensitive small text file whose own token count (200)
exceeds a 100-token budget. -/
def f200 : FileInfo :=
  { path := "a.go", relPath := "a.go", size := 800, category := "small",
    ftype := "text", extension := ".go", isReadable := true,
    isSensitive := false, violations := [], tokenCount := 200,
    content := "package a", summary := "", chunks := [] }

/-- A readable, non-sensitive small text file with token count 50. -/
def fFit : FileInfo :=
  { path := "b.go", relPath := "b.go", size := 200, category := "small",
    ftype := "text", extension := ".go", isReadable := true,
    isSensitive := false, violations := [], tokenCount := 50,
    content := "package b", summary := "", chunks := [] }

/-! ## C10: the header is budget-independent and lists all eligible files -/

/-- The eligibility test of the header loop
(`file.IsReadable && !file.IsSensitive`). -/
def eligibleFile (f : FileInfo) : Bool := f.isReadable && !f.isSensitive

/-- A validator whose single secret pattern matches every line. -/
def V1 : Validator :=
  { secretPatterns :=
      [{ source := "test", matchString := fun _ => true, replaceAll := fun s => s }]
    emailMatch := fun _ => false
    ssnMatch := fun _ => false
    ccMatch := fun _ => false
    phoneMatch := fun _ => false
    DetectSensitiveFile := fun _ => false }

/-- The record `AnalyzeFile` produces for a small 5-byte text file with
content `"password=x"` under `V1`. -/
def rec1 : FileInfo :=
  { path := "x.go", relPath := "x.go", size := 5, category := "small",
    ftype := "text", extension := ".go", isReadable := true,
    isSensitive := true,
    violations :=
      [{ file := "x.go", line := 1, vtype := "secret", pattern := "test",
         description := "Potential secret or credential detected",
         confidence := 0.8 }],
    tokenCount := 2, content := "password=x", summary := "", chunks := [] }

/-- Reconstruction of the chunks after the first, each dropping its
declared overlap with the previous chunk (which ended at `prevEnd`). -/
def reconstrRest (prevEnd : Nat) : List FileChunk → List String
  | [] => []
  | c :: rest =>
    c.contentLines.drop (prevEnd + 1 - c.startLine) ++ reconstrRest c.endLine rest

/-- Claim-side round-trip reconstruction: first chunk whole, every later
chunk with its declared overlap dropped, concatenated in index order. -/
def reconstr : List FileChunk → List String
  | [] => []
  | c :: rest => c.contentLines ++ reconstrRest c.endLine rest

/-- End line of the last chunk (0 if there is none). -/
def lastEnd (chunks : List FileChunk) : Nat :=
  match chunks.getLast? with
  | some c => c.endLine
  | none => 0

/-- `lastEnd` threaded from a starting value, for `reconstrRest`. -/
def lastEndD (d : Nat) : List FileChunk → Nat
  | [] => d
  | c :: rest => lastEndD c.endLine rest

/-! ## C8: the 250-line by-lines scenario -/

/-- The recorded placement of a chunk: index and line range. -/
def chunkRange (c : FileChunk) : Nat × Nat × Nat := (c.index, c.startLine, c.endLine)

/-- Does a delivered result carry an error? -/
def isErr (r : Nat × Except String AnalysisResponse) : Bool :=
  match r.2 with
  | .error _ => true
  | .ok _ => false

/-- Is a backend outcome a success? -/
def exceptOk (r : Except String AnalysisResponse) : Bool :=
  match r with
  | .ok _ => true
  | .error _ => false

/-- Successful payload of a delivered result when it has the wanted key. -/
def okAt (i : Nat) (r : Nat × Except String AnalysisResponse) :
    Option AnalysisResponse :=
  match r with
  | (j, .ok resp) => if j = i then some resp else none
  | _ => none

/-- Error payload of a delivered result when it has the wanted key. -/
def errAt (i : Nat) (r : Nat × Except String AnalysisResponse) : Option String :=
  match r with
  | (j, .error e) => if j = i then some e else none
  | _ => none

/-- Last delivered success for a key (map writes are last-write-wins). -/
def findOk (A : List (Nat × Except String AnalysisResponse)) (i : Nat) :
    Option AnalysisResponse :=
  A.reverse.findSome? (okAt i)

/-- Last delivered error for a key. -/
def findErr (A : List (Nat × Except String AnalysisResponse)) (i : Nat) :
    Option String :=
  A.reverse.findSome? (errAt i)

/-- The section a unit contributes to the final response: a success
section from the backend text, or a labelled failure section. -/
def seqSection (P : List (Option FileInfo) → Except String AnalysisResponse)
    (b : List (Option FileInfo)) : String :=
  match P b with
  | .error e => formatFileErrorSection (batch0RelPath b) e
  | .ok r => formatFileSection (batch0RelPath b) r.response

/-- A canned successful backend response. -/
def respOK : AnalysisResponse :=
  { response := "OK", model := "m", tokensUsed := 10, fileTokens := [], duration := 7 }

/-- A deterministic backend that always succeeds. -/
def beOk : Backend := fun _ _ _ => .ok respOK

/-- A small readable source file fixture. -/
def mkFile (p : String) : FileInfo :=
  { path := p, relPath := p, size := 200, category := "small", ftype := "text",
    extension := ".go", isReadable := true, isSensitive := false,
    violations := [], tokenCount := 50, content := "package demo",
    summary := "", chunks := [] }

/-- Two single-file batch units. -/
def batches2 : List (List (Option FileInfo)) :=
  [[some (mkFile "f1.go")], [some (mkFile "f2.go")]]

/-- Five single-file batch units. -/
def batches5 : List (List (Option FileInfo)) :=
  [[some (mkFile "f1.go")], [some (mkFile "f2.go")], [some (mkFile "f3.go")],
   [some (mkFile "f4.go")], [some (mkFile "f5.go")]]

/-- A deterministic backend that fails exactly on the unit whose task
names f3.go and succeeds on the others. -/
def beFail3 : Backend := fun t _ _ =>
  if goContains t "f3.go" then .error "boom" else .ok respOK

/-! ## C2: budget invariant of the running-total rule -/

/-- Invariant of the `PrepareForLLM` content loop: starting from a running
total within budget, the admitted token counts never push it past the
budget. -/
theorem prepLoop_sum_le (v : Validator) (maxTokens : Nat) :
    ∀ (files : List (Option FileInfo)) (cur : Nat), cur ≤ maxTokens →
      cur + sumTokens (prepLoop v maxTokens files cur).2 ≤ maxTokens := by
  intro files
  induction files with
  | nil =>
    intro cur h
    simpa [prepLoop, sumTokens] using h
  | cons hd rest ih =>
    intro cur h
    cases hd with
    | none => simpa [prepLoop] using ih cur h
    | some file =>
      simp only [prepLoop]
      split
      · exact ih cur h
      · split
        · simpa using ih cur h
        · split
          · simpa [sumTokens] using h
          · rename_i hb
            have hb' : cur + file.tokenCount ≤ maxTokens := Nat.le_of_not_lt hb
            split
            · split
              · have := ih (cur + file.tokenCount) hb'
                simp only [sumTokens, List.map_cons, List.sum_cons] at this ⊢
                omega
              · simpa using ih cur h
            · split
              · simpa using ih cur h
              · simpa using ih cur h

/-- C2 (confirmed): for every file list and every token budget, the sum of
the token counts of the files whose content `PrepareForLLM` admits under
the running-total rule is at most the budget. -/
theorem C2_budget_invariant (v : Validator) (files : List (Option FileInfo))
    (maxTokens : Nat) : sumTokens (admittedFiles v files maxTokens) ≤ maxTokens := by
  simpa [admittedFiles] using prepLoop_sum_le v maxTokens files 0 (Nat.zero_le _)

/-! ## C3: treatment of the first eligible file -/

/-- Behaviour of the content loop on the first eligible file: admitted
iff its own token count fits the whole budget; otherwise the loop breaks
with nothing admitted. -/
theorem prepLoop_first (v : Validator) (maxTokens : Nat) :
    ∀ (files : List (Option FileInfo)) (f : FileInfo),
      firstEligible files = some f →
      ((f.tokenCount ≤ maxTokens → (f.category = "small" ∨ f.category = "medium") →
          f.content ≠ "" → ((prepLoop v maxTokens files 0).2).head? = some f) ∧
       (maxTokens < f.tokenCount → (prepLoop v maxTokens files 0).2 = [])) := by
  intro files
  induction files with
  | nil => intro f hf; simp [firstEligible] at hf
  | cons hd rest ih =>
    intro f hf
    cases hd with
    | none =>
      simp only [firstEligible] at hf
      simpa [prepLoop] using ih f hf
    | some g =>
      by_cases hr : g.isReadable
      · by_cases hs : g.isSensitive
        · have hf' : firstEligible rest = some f := by
            simpa [firstEligible, hr, hs] using hf
          simpa [prepLoop, hr, hs] using ih f hf'
        · have hfg : g = f := by
            simpa [firstEligible, hr, hs] using hf
          subst hfg
          constructor
          · intro hfit hcat hne
            have hnb : ¬ maxTokens < g.tokenCount := by omega
            simp [prepLoop, hr, hs, hnb, hcat, hne]
          · intro hbig
            simp [prepLoop, hr, hs, hbig]
      · have hf' : firstEligible rest = some f := by
          simpa [firstEligible, hr] using hf
        simpa [prepLoop, hr] using ih f hf'

/-- C3 (counterexample): a single readable, non-sensitive small file whose
token count (200) exceeds the budget (100) is the first eligible file, yet
`PrepareForLLM` admits nothing — the selection stops before including any
eligible file, contradicting the claim. -/
theorem C3_counterexample :
    firstEligible [some f200] = some f200 ∧
    admittedFiles V0 [some f200] 100 = [] := by
  constructor
  · decide
  · decide

/-- C3 (amended): in `PrepareForLLM` of analyzer/analyzer.go, the first
eligible (readable, non-sensitive) file is admitted exactly when its own
token count does not exceed the budget (its content block is rendered
first, for a Small/Medium file with non-empty content); when its token
count exceeds the budget, the selection stops having admitted nothing. -/
theorem C3_first_file (v : Validator) (files : List (Option FileInfo))
    (maxTokens : Nat) (f : FileInfo) (hf : firstEligible files = some f) :
    (f.tokenCount ≤ maxTokens → (f.category = "small" ∨ f.category = "medium") →
      f.content ≠ "" → (admittedFiles v files maxTokens).head? = some f) ∧
    (maxTokens < f.tokenCount → admittedFiles v files maxTokens = []) :=
  prepLoop_first v maxTokens files f hf

theorem C3_first_file_witness :
    (admittedFiles V0 [some fFit] 100).head? = some fFit ∧
    admittedFiles V0 [some f200] 100 = [] :=
  ⟨(C3_first_file V0 [some fFit] 100 fFit (by decide)).1 (by decide) (by decide)
      (by decide),
   (C3_first_file V0 [some f200] 100 f200 (by decide)).2 (by decide)⟩

/-! ## C9: monotonicity of the token estimate -/

/-- C9 (counterexample): the token count assigned to file content is
`len(content)/4` with `len` counting bytes, not characters.  The content
"aaaaaaa" is longer in characters (7 ≥ 4) than "éééé" but is assigned
fewer tokens (1 < 2), so the estimate is not non-decreasing in character
length. -/
theorem C9_counterexample :
    String.length "éééé" ≤ String.length "aaaaaaa" ∧
    EstimateTokensSimple "aaaaaaa" < EstimateTokensSimple "éééé" := by
  decide

/-- C9 (amended): the token estimate assigned to file content
(`EstimateTokensSimple`, used by `AnalyzeFile` for every category) is
non-decreasing in the byte length of the content. -/
theorem C9_token_monotone (s t : String) (h : goLen s ≤ goLen t) :
    EstimateTokensSimple s ≤ EstimateTokensSimple t :=
  Nat.div_le_div_right h

theorem C9_token_monotone_witness :
    EstimateTokensSimple "ab" ≤ EstimateTokensSimple "abcd" :=
  C9_token_monotone "ab" "abcd" (by decide)

/-- The file-listing loop of `PrepareForLLM` computes exactly the relative
paths of the readable, non-sensitive files. -/
theorem fileListLoop_eq_spec : ∀ files, fileListLoop files = fileListSpec files := by
  intro files
  induction files with
  | nil => rfl
  | cons hd rest ih =>
    cases hd with
    | none =>
      have h1 : fileListLoop (none :: rest) = fileListLoop rest := rfl
      have h2 : fileListSpec (none :: rest) = fileListSpec rest := rfl
      rw [h1, h2, ih]
    | some f =>
      by_cases h : f.isReadable && !f.isSensitive
      · have hpair := (Bool.and_eq_true _ _).mp h
        have hr := hpair.1
        have hs : f.isSensitive = false := by simpa using hpair.2
        have h1 : fileListLoop (some f :: rest) = f.relPath :: fileListLoop rest := by
          simp [fileListLoop, h]
        have h2 : fileListSpec (some f :: rest) = f.relPath :: fileListSpec rest := by
          simp [fileListSpec, List.filterMap_cons, hr, hs]
        rw [h1, h2, ih]
      · have hcond : ¬(f.isReadable = true ∧ f.isSensitive = false) := by
          by_contra hc; exact h (by simp [Bool.and_eq_true, hc.1, hc.2])
        have h1 : fileListLoop (some f :: rest) = fileListLoop rest := by
          simp [fileListLoop, h]
        have h2 : fileListSpec (some f :: rest) = fileListSpec rest := by
          simp [fileListSpec, List.filterMap_cons, hcond]
        rw [h1, h2, ih]

/-- The header's file list is exactly the eligible files' relative paths. -/
theorem fileListSpec_eq_filter : ∀ files : List (Option FileInfo),
    fileListSpec files =
      ((files.filterMap id).filter eligibleFile).map (fun f => f.relPath) := by
  intro files
  induction files with
  | nil => rfl
  | cons hd rest ih =>
    cases hd with
    | none => exact ih
    | some f =>
      by_cases h : f.isReadable && !f.isSensitive
      · have hpair := (Bool.and_eq_true _ _).mp h
        have hr := hpair.1
        have hs : f.isSensitive = false := by simpa using hpair.2
        have h1 : fileListSpec (some f :: rest) = f.relPath :: fileListSpec rest := by
          simp [fileListSpec, List.filterMap_cons, hr, hs]
        have h2 : ((some f :: rest).filterMap id).filter eligibleFile =
            f :: (rest.filterMap id).filter eligibleFile := by
          simp [eligibleFile, h]
        rw [h1, h2, List.map_cons, ih]
      · have hcond : ¬(f.isReadable = true ∧ f.isSensitive = false) := by
          by_contra hc; exact h (by simp [Bool.and_eq_true, hc.1, hc.2])
        have h1 : fileListSpec (some f :: rest) = fileListSpec rest := by
          simp [fileListSpec, List.filterMap_cons, hcond]
        have h2 : ((some f :: rest).filterMap id).filter eligibleFile =
            (rest.filterMap id).filter eligibleFile := by
          simp [eligibleFile, h]
        rw [h1, h2, ih]

/-- C10 (confirmed): the rendered payload decomposes into a header that
does not depend on the token budget, followed by the budget-limited
content sections.  The header's file list (and hence the reported count,
`(fileListSpec files).length` inside `prepHeader`) covers the relative
path of every non-nil readable, non-sensitive file, including files whose
content sections the budget later omits. -/
theorem C10_header_budget_free (v : Validator) (files : List (Option FileInfo))
    (maxTokens : Nat) :
    PrepareForLLM v files maxTokens =
      prepHeader (fileListSpec files) ++ (prepLoop v maxTokens files 0).1 ∧
    fileListSpec files =
      ((files.filterMap id).filter eligibleFile).map (fun f => f.relPath) :=
  ⟨by rw [PrepareForLLM, fileListLoop_eq_spec], fileListSpec_eq_filter files⟩

/-! ## C6: violations imply the sensitivity flag -/

/-- The early path-based flag leaves the violations list unchanged. -/
theorem ite_sensitive_violations (c : Prop) [Decidable c] (i : FileInfo) :
    (if c then { i with isSensitive := true } else i).violations = i.violations := by
  split <;> rfl

/-- `flagViolations` sets the sensitivity flag whenever it appends to an
initially empty violations list. -/
theorem flagViolations_inv (v : Validator) (i : FileInfo) (c : String)
    (h : i.violations = []) :
    (flagViolations v i c).violations ≠ [] → (flagViolations v i c).isSensitive = true := by
  intro hne
  simp only [flagViolations] at hne ⊢
  split
  · rfl
  · rename_i hc
    rw [if_neg hc] at hne
    exact absurd h hne

/-- `DetectFile` never records a violation. -/
theorem DetectFile_violations (smallBytes mediumBytes : Int) (statSize : Option Int)
    (typeOutcome : Except Unit String) (path ext : String) (i : FileInfo)
    (h : DetectFile smallBytes mediumBytes statSize typeOutcome path ext = some i) :
    i.violations = [] := by
  cases statSize with
  | none => simp [DetectFile] at h
  | some size =>
    cases typeOutcome with
    | error u =>
      simp only [DetectFile, Option.some.injEq] at h
      subst h; rfl
    | ok t =>
      simp only [DetectFile, Option.some.injEq] at h
      subst h; rfl

/-- Core of C6: `AnalyzeFileCore` preserves the invariant that a record
with no violations is only ever given violations together with the
sensitivity flag. -/
theorem AnalyzeFileCore_violations (v : Validator) (maxFileSizeBytes : Int)
    (ccfg : ChunkingConfig) (readRes : Option String)
    (chunkLns : Option (List String)) (info2 : FileInfo)
    (h0 : info2.violations = []) :
    (AnalyzeFileCore v maxFileSizeBytes ccfg readRes chunkLns info2).1.violations ≠ [] →
    (AnalyzeFileCore v maxFileSizeBytes ccfg readRes chunkLns info2).1.isSensitive = true := by
  cases readRes with
  | none =>
    simp only [AnalyzeFileCore]
    split
    · intro hne; exact absurd h0 hne
    · split
      · intro hne; exact absurd h0 hne
      · split
        · intro hne; exact absurd h0 hne
        · split
          · intro hne; exact absurd h0 hne
          · split
            · intro hne; exact absurd h0 hne
            · intro hne; exact absurd h0 hne
  | some content =>
    cases chunkLns with
    | none =>
      simp only [AnalyzeFileCore]
      split
      · intro hne; exact absurd h0 hne
      · split
        · intro hne; exact absurd h0 hne
        · split
          · exact flagViolations_inv v _ _ h0
          · split
            · exact flagViolations_inv v _ _ h0
            · split
              · intro hne; exact absurd h0 hne
              · intro hne; exact absurd h0 hne
    | some lns =>
      simp only [AnalyzeFileCore]
      split
      · intro hne; exact absurd h0 hne
      · split
        · intro hne; exact absurd h0 hne
        · split
          · exact flagViolations_inv v _ _ h0
          · split
            · exact flagViolations_inv v _ _ h0
            · split
              · exact flagViolations_inv v _ _ h0
              · intro hne; exact absurd h0 hne

/-- C6 (confirmed): every record produced by `AnalyzeFile` from a
`DetectFile` outcome satisfies: a non-empty violations list implies the
sensitivity flag is set. -/
theorem C6_sensitivity_invariant (v : Validator) (maxFileSizeBytes : Int)
    (ccfg : ChunkingConfig) (smallBytes mediumBytes : Int) (statSize : Option Int)
    (typeOutcome : Except Unit String) (relRes readRes : Option String)
    (chunkLns : Option (List String)) (path ext : String) (rec : FileInfo)
    (e : Option String)
    (h : AnalyzeFile v maxFileSizeBytes ccfg
          (DetectFile smallBytes mediumBytes statSize typeOutcome path ext)
          relRes readRes chunkLns path = some (rec, e)) :
    rec.violations ≠ [] → rec.isSensitive = true := by
  cases hd : DetectFile smallBytes mediumBytes statSize typeOutcome path ext with
  | none => rw [hd] at h; simp [AnalyzeFile] at h
  | some info0 =>
    rw [hd] at h
    have h0 : info0.violations = [] :=
      DetectFile_violations smallBytes mediumBytes statSize typeOutcome path ext info0 hd
    simp only [AnalyzeFile, Option.some.injEq] at h
    have h1 : (AnalyzeFileCore v maxFileSizeBytes ccfg readRes chunkLns
        { (if v.DetectSensitiveFile path then { info0 with isSensitive := true }
           else info0) with relPath := relRes.getD path }).1 = rec := by
      rw [h]
    rw [← h1]
    exact AnalyzeFileCore_violations v maxFileSizeBytes ccfg readRes chunkLns _
      (by simpa [ite_sensitive_violations] using h0)

theorem C6_sensitivity_invariant_witness :
    rec1.violations ≠ [] ∧ rec1.isSensitive = true :=
  ⟨by decide,
   C6_sensitivity_invariant V1 1000 ⟨"lines", 2, 1⟩ 100 1000 (some 5) (.ok "text")
     (some "x.go") (some "password=x") (some ["password=x"]) "x.go" ".go" rec1 none
     (by rfl) (by decide)⟩

/-! ## C4: chunk round-trip

A chunk's declared overlap with its predecessor is read off the recorded
line ranges: chunk `c` following a chunk ending at line `e` declares
`e + 1 - c.startLine` overlap lines.  Reconstruction drops the declared
overlap from every chunk after the first and concatenates in index
order. -/

theorem lastEndD_eq (d : Nat) (l : List FileChunk) (c : FileChunk) :
    lastEndD d (l ++ [c]) = c.endLine := by
  induction l generalizing d with
  | nil => rfl
  | cons hd tl ih => simpa [lastEndD] using ih hd.endLine

theorem lastEnd_concat (l : List FileChunk) (c : FileChunk) :
    lastEnd (l ++ [c]) = c.endLine := by
  simp [lastEnd, List.getLast?_concat]

theorem lastEnd_eq_lastEndD (l : List FileChunk) (c : FileChunk) :
    lastEndD c.endLine l = lastEnd (c :: l) := by
  induction l generalizing c with
  | nil => rfl
  | cons hd tl ih =>
    have h1 : lastEndD c.endLine (hd :: tl) = lastEndD hd.endLine tl := rfl
    rw [h1, ih hd]
    have : (c :: hd :: tl) = [c] ++ (hd :: tl) := rfl
    cases tl with
    | nil => simp [lastEnd]
    | cons x xs => simp [lastEnd, List.getLast?_cons_cons]

theorem reconstrRest_concat (prevEnd : Nat) (l : List FileChunk) (c : FileChunk) :
    reconstrRest prevEnd (l ++ [c]) =
      reconstrRest prevEnd l ++
        c.contentLines.drop (lastEndD prevEnd l + 1 - c.startLine) := by
  induction l generalizing prevEnd with
  | nil => simp [reconstrRest, lastEndD]
  | cons hd tl ih =>
    simp only [List.cons_append, reconstrRest, lastEndD, List.append_eq]
    rw [ih hd.endLine, List.append_assoc]

/-- Appending one chunk to a reconstruction: its declared overlap is
computed against the previous last end line (for a first chunk starting
at line 1, nothing is dropped). -/
theorem reconstr_concat (l : List FileChunk) (c : FileChunk) (hs : 1 ≤ c.startLine) :
    reconstr (l ++ [c]) =
      reconstr l ++ c.contentLines.drop (lastEnd l + 1 - c.startLine) := by
  cases l with
  | nil =>
    have h1 : lastEnd ([] : List FileChunk) = 0 := rfl
    have h2 : 0 + 1 - c.startLine = 0 := by omega
    simp [reconstr, reconstrRest, h1, h2]
  | cons hd tl =>
    simp only [List.cons_append, reconstr, List.append_eq]
    rw [reconstrRest_concat, lastEnd_eq_lastEndD, List.append_assoc]

/-- Round-trip invariant of the `chunkByLines` loop. -/
theorem chunkByLinesLoop_recon (cfg : ChunkingConfig) :
    ∀ (rest done cur : List String) (cs off : Nat) (chunks : List FileChunk),
      cur = done.drop (cs - 1) →
      1 ≤ cs →
      reconstr chunks = done.take (lastEnd chunks) →
      cs ≤ lastEnd chunks + 1 →
      lastEnd chunks ≤ done.length →
      reconstr (chunkByLinesLoop cfg rest cur (done.length + 1) cs off chunks) =
        done ++ rest := by
  intro rest
  induction rest with
  | nil =>
    intro done cur cs off chunks hcur hcs hrec hcsle hele
    simp only [chunkByLinesLoop]
    split
    · rw [reconstr_concat _ _ hcs]
      simp only [lastEnd_concat]
      rw [hrec, hcur]
      rw [List.drop_drop]
      have harith : cs - 1 + (lastEnd chunks + 1 - cs) = lastEnd chunks := by omega
      rw [harith]
      simp [List.take_append_drop]
    · rename_i hz
      have hnil : done.drop (cs - 1) = [] := by
        rw [← hcur]
        cases cur with
        | nil => rfl
        | cons a l => simp at hz
      have hlen : done.length ≤ cs - 1 := by
        simpa using List.drop_eq_nil_iff.mp hnil
      have he : lastEnd chunks = done.length := by omega
      rw [hrec, he]
      simp
  | cons line t ih =>
    intro done cur cs off chunks hcur hcs hrec hcsle hele
    simp only [chunkByLinesLoop]
    have hcsd : cs - 1 ≤ done.length := by omega
    have hd1 : (done ++ [line]).length = done.length + 1 := by simp
    have hcur2 : cur ++ [line] = (done ++ [line]).drop (cs - 1) := by
      rw [List.drop_append_of_le_length hcsd, hcur]
    split
    · -- emit a chunk, carry the overlap
      have hlen2 : (cur ++ [line]).length = done.length + 1 - (cs - 1) := by
        rw [hcur2]
        simp
      have hovle : min cfg.overlap (cur ++ [line]).length ≤ (cur ++ [line]).length :=
        Nat.min_le_right _ _
      rw [show done ++ line :: t = (done ++ [line]) ++ t by simp]
      rw [show done.length + 1 + 1 = (done ++ [line]).length + 1 by simp]
      apply ih
      · rw [hcur2, List.drop_drop]
        congr 1
        have he2 : (List.drop (cs - 1) (done ++ [line])).length =
            done.length + 1 - (cs - 1) := by simp
        have hm := Nat.min_le_right cfg.overlap
          (List.drop (cs - 1) (done ++ [line])).length
        omega
      · omega
      · rw [reconstr_concat _ _ hcs]
        rw [lastEnd_concat]
        rw [hrec, hcur2, List.drop_drop]
        have harith : cs - 1 + (lastEnd chunks + 1 - cs) = lastEnd chunks := by omega
        rw [harith]
        have htake : done.take (lastEnd chunks) =
            (done ++ [line]).take (lastEnd chunks) := by
          rw [List.take_append_of_le_length hele]
        rw [htake, List.take_append_drop]
        show done ++ [line] = (done ++ [line]).take (done.length + 1)
        rw [← hd1, List.take_length]
      · rw [lastEnd_concat]
        show done.length + 1 - _ + 1 ≤ done.length + 1 + 1
        omega
      · rw [lastEnd_concat]
        show done.length + 1 ≤ (done ++ [line]).length
        omega
    · -- keep accumulating
      rw [show done ++ line :: t = (done ++ [line]) ++ t by simp]
      rw [show done.length + 1 + 1 = (done ++ [line]).length + 1 by simp]
      apply ih
      · exact hcur2
      · exact hcs
      · rw [hrec, List.take_append_of_le_length hele]
      · exact hcsle
      · omega

/-- Round-trip of `chunkByLines`. -/
theorem chunkByLines_roundtrip (cfg : ChunkingConfig) (lines : List String) :
    reconstr (chunkByLines cfg lines) = lines := by
  have := chunkByLinesLoop_recon cfg lines [] [] 1 0 []
    (by simp) (by omega) (by simp [reconstr, lastEnd]) (by simp [lastEnd]) (by simp [lastEnd])
  simpa [chunkByLines] using this

theorem calcOverlapLoop_le (cfg : ChunkingConfig) :
    ∀ (xs : List String) (ct acc : Nat),
      calculateOverlapLinesLoop cfg xs ct acc ≤ acc + xs.length := by
  intro xs
  induction xs with
  | nil => intro ct acc; simp [calculateOverlapLinesLoop]
  | cons l rest ih =>
    intro ct acc
    simp only [calculateOverlapLinesLoop]
    split
    · have := ih (ct + chunkerEstimateTokens l) (acc + 1)
      simp only [List.length_cons]
      omega
    · simp only [List.length_cons]
      omega

/-- The overlap walk never carries more lines than the chunk has. -/
theorem calculateOverlapLines_le (cfg : ChunkingConfig) (l : List String) :
    calculateOverlapLines cfg l ≤ l.length := by
  have := calcOverlapLoop_le cfg l.reverse 0 0
  simpa [calculateOverlapLines] using this

/-- Round-trip invariant of the `chunkByTokens` loop. -/
theorem chunkByTokensLoop_recon (cfg : ChunkingConfig) :
    ∀ (rest done cur : List String) (ct cs off : Nat) (chunks : List FileChunk),
      cur = done.drop (cs - 1) →
      1 ≤ cs →
      reconstr chunks = done.take (lastEnd chunks) →
      cs ≤ lastEnd chunks + 1 →
      lastEnd chunks ≤ done.length →
      reconstr (chunkByTokensLoop cfg rest cur ct cs (done.length + 1) off chunks) =
        done ++ rest := by
  intro rest
  induction rest with
  | nil =>
    intro done cur ct cs off chunks hcur hcs hrec hcsle hele
    simp only [chunkByTokensLoop]
    split
    · rw [reconstr_concat _ _ hcs]
      rw [hrec, hcur, List.drop_drop]
      have harith : cs - 1 + (lastEnd chunks + 1 - cs) = lastEnd chunks := by omega
      rw [harith]
      simp [List.take_append_drop]
    · rename_i hz
      have hnil : done.drop (cs - 1) = [] := by
        rw [← hcur]
        cases cur with
        | nil => rfl
        | cons a l => simp at hz
      have hlen : done.length ≤ cs - 1 := by
        simpa using List.drop_eq_nil_iff.mp hnil
      have he : lastEnd chunks = done.length := by omega
      rw [hrec, he]
      simp
  | cons line t ih =>
    intro done cur ct cs off chunks hcur hcs hrec hcsle hele
    simp only [chunkByTokensLoop]
    have hcsd : cs - 1 ≤ done.length := by omega
    have hd1 : (done ++ [line]).length = done.length + 1 := by simp
    have hcur2 : cur ++ [line] = (done ++ [line]).drop (cs - 1) := by
      rw [List.drop_append_of_le_length hcsd, hcur]
    split
    · -- emit the accumulated chunk, then append the line to the carried overlap
      have hov2 : calculateOverlapLines cfg cur ≤ cur.length :=
        calculateOverlapLines_le cfg cur
      have hcl : cur.length = done.length - (cs - 1) := by rw [hcur]; simp
      rw [show done ++ line :: t = (done ++ [line]) ++ t by simp]
      rw [show done.length + 1 + 1 = (done ++ [line]).length + 1 by simp]
      apply ih
      · rw [hcur]
        rw [hcur] at hov2
        have hdl : (done.drop (cs - 1)).length = done.length - (cs - 1) := by simp
        rw [List.drop_drop]
        rw [List.drop_append_of_le_length (by omega)]
        have harith : cs - 1 + ((done.drop (cs - 1)).length -
            calculateOverlapLines cfg (done.drop (cs - 1))) =
            done.length + 1 - calculateOverlapLines cfg (done.drop (cs - 1)) - 1 := by
          omega
        rw [harith]
      · omega
      · rw [reconstr_concat _ _ hcs, lastEnd_concat]
        rw [hrec, hcur, List.drop_drop]
        have harith : cs - 1 + (lastEnd chunks + 1 - cs) = lastEnd chunks := by omega
        rw [harith, List.take_append_drop]
        rw [show done.length + 1 - 1 = done.length by omega,
          List.take_append_of_le_length (Nat.le_refl _), List.take_length]
      · rw [lastEnd_concat]
        show done.length + 1 - _ ≤ done.length + 1 - 1 + 1
        omega
      · rw [lastEnd_concat, hd1]
        show done.length + 1 - 1 ≤ done.length + 1
        omega
    · -- keep accumulating
      rw [show done ++ line :: t = (done ++ [line]) ++ t by simp]
      rw [show done.length + 1 + 1 = (done ++ [line]).length + 1 by simp]
      apply ih
      · exact hcur2
      · exact hcs
      · rw [hrec, List.take_append_of_le_length hele]
      · exact hcsle
      · omega

/-- Round-trip of `chunkByTokens`. -/
theorem chunkByTokens_roundtrip (cfg : ChunkingConfig) (lines : List String) :
    reconstr (chunkByTokens cfg lines) = lines := by
  have := chunkByTokensLoop_recon cfg lines [] [] 0 1 0 []
    (by simp) (by omega) (by simp [reconstr, lastEnd]) (by simp [lastEnd]) (by simp [lastEnd])
  simpa [chunkByTokens] using this

/-- Round-trip invariant of the `chunkSmart` loop. -/
theorem chunkSmartLoop_recon (cfg : ChunkingConfig) :
    ∀ (rest done cur : List String) (ct cs off : Nat) (chunks : List FileChunk),
      cur = done.drop (cs - 1) →
      1 ≤ cs →
      reconstr chunks = done.take (lastEnd chunks) →
      cs ≤ lastEnd chunks + 1 →
      lastEnd chunks ≤ done.length →
      reconstr (chunkSmartLoop cfg rest cur ct cs (done.length + 1) off chunks) =
        done ++ rest := by
  intro rest
  induction rest with
  | nil =>
    intro done cur ct cs off chunks hcur hcs hrec hcsle hele
    simp only [chunkSmartLoop]
    split
    · rw [reconstr_concat _ _ hcs]
      rw [hrec, hcur, List.drop_drop]
      have harith : cs - 1 + (lastEnd chunks + 1 - cs) = lastEnd chunks := by omega
      rw [harith]
      simp [List.take_append_drop]
    · rename_i hz
      have hnil : done.drop (cs - 1) = [] := by
        rw [← hcur]
        cases cur with
        | nil => rfl
        | cons a l => simp at hz
      have hlen : done.length ≤ cs - 1 := by
        simpa using List.drop_eq_nil_iff.mp hnil
      have he : lastEnd chunks = done.length := by omega
      rw [hrec, he]
      simp
  | cons line t ih =>
    intro done cur ct cs off chunks hcur hcs hrec hcsle hele
    simp only [chunkSmartLoop]
    have hcsd : cs - 1 ≤ done.length := by omega
    have hd1 : (done ++ [line]).length = done.length + 1 := by simp
    have hcur2 : cur ++ [line] = (done ++ [line]).drop (cs - 1) := by
      rw [List.drop_append_of_le_length hcsd, hcur]
    split
    · -- emit at a logical boundary, start the next chunk from this line
      rw [show done ++ line :: t = (done ++ [line]) ++ t by simp]
      rw [show done.length + 1 + 1 = (done ++ [line]).length + 1 by simp]
      apply ih
      · rw [show done.length + 1 - 1 = done.length by omega,
          List.drop_append_of_le_length (Nat.le_refl _), List.drop_length]
        rfl
      · omega
      · rw [reconstr_concat _ _ hcs, lastEnd_concat]
        rw [hrec, hcur, List.drop_drop]
        have harith : cs - 1 + (lastEnd chunks + 1 - cs) = lastEnd chunks := by omega
        rw [harith, List.take_append_drop]
        rw [show done.length + 1 - 1 = done.length by omega,
          List.take_append_of_le_length (Nat.le_refl _), List.take_length]
      · rw [lastEnd_concat]
        show done.length + 1 ≤ done.length + 1 - 1 + 1
        omega
      · rw [lastEnd_concat, hd1]
        show done.length + 1 - 1 ≤ done.length + 1
        omega
    · -- keep accumulating
      rw [show done ++ line :: t = (done ++ [line]) ++ t by simp]
      rw [show done.length + 1 + 1 = (done ++ [line]).length + 1 by simp]
      apply ih
      · exact hcur2
      · exact hcs
      · rw [hrec, List.take_append_of_le_length hele]
      · exact hcsle
      · omega

/-- Round-trip of `chunkSmart`. -/
theorem chunkSmart_roundtrip (cfg : ChunkingConfig) (lines : List String) :
    reconstr (chunkSmart cfg lines) = lines := by
  have := chunkSmartLoop_recon cfg lines [] [] 0 1 0 []
    (by simp) (by omega) (by simp [reconstr, lastEnd]) (by simp [lastEnd]) (by simp [lastEnd])
  simpa [chunkSmart] using this

/-- C4 (confirmed): for every line sequence and every chunking
configuration, each of the three strategies (by-lines, by-tokens,
boundary-aware) produces chunks from which dropping each chunk's declared
overlap (read off its recorded line range against its predecessor's end
line) and concatenating in index order reproduces the original line
sequence exactly. -/
theorem C4_chunk_roundtrip (cfg : ChunkingConfig) (lines : List String) :
    reconstr (chunkByLines cfg lines) = lines ∧
    reconstr (chunkByTokens cfg lines) = lines ∧
    reconstr (chunkSmart cfg lines) = lines :=
  ⟨chunkByLines_roundtrip cfg lines, chunkByTokens_roundtrip cfg lines,
   chunkSmart_roundtrip cfg lines⟩

/-- Chunk placement depends only on the shape (lengths) of the input, not
on line contents or byte offsets. -/
theorem chunkByLinesLoop_ranges (cfg : ChunkingConfig) :
    ∀ (rest rest' cur cur' : List String) (ln cs off off' : Nat)
      (chunks chunks' : List FileChunk),
      rest.length = rest'.length → cur.length = cur'.length →
      chunks.map chunkRange = chunks'.map chunkRange →
      (chunkByLinesLoop cfg rest cur ln cs off chunks).map chunkRange =
        (chunkByLinesLoop cfg rest' cur' ln cs off' chunks').map chunkRange := by
  intro rest
  induction rest with
  | nil =>
    intro rest' cur cur' ln cs off off' chunks chunks' hr hcl hmap
    have h0 : rest' = [] := List.length_eq_zero.mp hr.symm
    subst h0
    simp only [chunkByLinesLoop]
    have hlen : chunks.length = chunks'.length := by
      have := congrArg List.length hmap
      simpa using this
    by_cases hpos : cur.length > 0
    · rw [if_pos hpos, if_pos (by omega : cur'.length > 0)]
      rw [List.map_append, List.map_append, hmap]
      simp [chunkRange, hlen]
    · rw [if_neg hpos, if_neg (by omega : ¬ cur'.length > 0)]
      exact hmap
  | cons l t ih =>
    intro rest' cur cur' ln cs off off' chunks chunks' hr hcl hmap
    cases rest' with
    | nil => simp at hr
    | cons l' t' =>
      simp only [chunkByLinesLoop]
      have hc2 : (cur ++ [l]).length = (cur' ++ [l']).length := by simp [hcl]
      have hlen : chunks.length = chunks'.length := by
        have := congrArg List.length hmap
        simpa using this
      by_cases hge : (cur ++ [l]).length ≥ cfg.chunkSize
      · rw [if_pos hge, if_pos (by rw [← hc2]; exact hge)]
        rw [← hc2]
        apply ih
        · simpa using hr
        · simp [hc2]
        · rw [List.map_append, List.map_append, hmap]
          simp [chunkRange, hlen]
      · rw [if_neg hge, if_neg (by rw [← hc2]; exact hge)]
        apply ih
        · simpa using hr
        · exact hc2
        · exact hmap

set_option maxRecDepth 20000 in
/-- C8 (confirmed): by-lines chunking of any 250-line input with chunk
size 100 and overlap 20 produces exactly three chunks placed at lines
1-100, 81-180 and 161-250. -/
theorem C8_bylines_250 (ls : List String) (h : ls.length = 250) :
    (chunkByLines ⟨"lines", 100, 20⟩ ls).map chunkRange =
      [(0, 1, 100), (1, 81, 180), (2, 161, 250)] := by
  have heq := chunkByLinesLoop_ranges ⟨"lines", 100, 20⟩ ls
    (List.replicate 250 "") [] [] 1 1 0 0 [] []
    (by rw [h, List.length_replicate]) rfl rfl
  have hconc : (chunkByLines ⟨"lines", 100, 20⟩ (List.replicate 250 "")).map
      chunkRange = [(0, 1, 100), (1, 81, 180), (2, 161, 250)] := by decide
  rw [chunkByLines]
  rw [chunkByLines] at hconc
  exact heq.trans hconc

theorem C8_bylines_250_witness :
    (chunkByLines ⟨"lines", 100, 20⟩ (List.replicate 250 "x")).map chunkRange =
      [(0, 1, 100), (1, 81, 180), (2, 161, 250)] :=
  C8_bylines_250 (List.replicate 250 "x") (List.length_replicate 250 "x")

/-! ## C1/C7: the batch dispatcher

Generic lemmas about the Go-map embedding, the result-collection fold and
the canonical numbering of units. -/

theorem mapLookup_insert {κ ν : Type} [DecidableEq κ] (m : List (κ × ν)) (k k' : κ)
    (v : ν) :
    mapLookup (mapInsert m k v) k' = if k = k' then some v else mapLookup m k' := by
  induction m with
  | nil =>
    by_cases h : k = k' <;> simp [mapInsert, mapLookup, List.find?, h]
  | cons p rest ih =>
    by_cases h1 : p.1 = k
    · by_cases h : k = k'
      · simp [mapInsert, mapLookup, List.find?, h1, h]
      · have hp : ¬ p.1 = k' := by rw [h1]; exact h
        simp [mapInsert, mapLookup, List.find?, h1, h, hp]
    · by_cases hp : p.1 = k'
      · have h : ¬ k = k' := by intro hkk; exact h1 (by rw [hkk]; exact hp)
        have h' : ¬ k' = k := fun hh => h hh.symm
        simp [mapInsert, mapLookup, List.find?, h1, h, hp, h']
      · simp only [mapInsert, if_neg h1]
        by_cases h : k = k'
        · simpa [mapLookup, List.find?, hp, h] using ih
        · simpa [mapLookup, List.find?, hp, h] using ih

theorem mapInsert_length_new {κ ν : Type} [DecidableEq κ] (m : List (κ × ν))
    (k : κ) (v : ν) (h : k ∉ m.map Prod.fst) :
    (mapInsert m k v).length = m.length + 1 := by
  induction m with
  | nil => rfl
  | cons p rest ih =>
    have h1 : ¬ p.1 = k := by
      intro hpk
      exact h (by simp [hpk.symm])
    have h2 : k ∉ rest.map Prod.fst := by
      intro hk
      exact h (by simp [hk])
    simp [mapInsert, h1, ih h2]

theorem mapInsert_keys {κ ν : Type} [DecidableEq κ] (m : List (κ × ν)) (k k' : κ)
    (v : ν) (h : k' ∈ (mapInsert m k v).map Prod.fst) :
    k' ∈ m.map Prod.fst ∨ k' = k := by
  induction m with
  | nil =>
    simp [mapInsert] at h
    exact Or.inr h
  | cons p rest ih =>
    by_cases h1 : p.1 = k
    · simp only [mapInsert, if_pos h1, List.map_cons, List.mem_cons] at h
      rcases h with h | h
      · exact Or.inr h
      · exact Or.inl (by simp [h])
    · simp only [mapInsert, if_neg h1, List.map_cons, List.mem_cons] at h
      rcases h with h | h
      · exact Or.inl (by simp [h])
      · rcases ih h with h2 | h2
        · exact Or.inl (by simp [h2])
        · exact Or.inr h2

theorem findSome?_concat {α β : Type} (l₁ l₂ : List α) (f : α → Option β) :
    (l₁ ++ l₂).findSome? f =
      match l₁.findSome? f with
      | some b => some b
      | none => l₂.findSome? f := by
  induction l₁ with
  | nil => simp [List.findSome?]
  | cons x rest ih =>
    simp only [List.cons_append, List.findSome?]
    cases f x with
    | none => simpa using ih
    | some b => rfl

theorem findSome?_eq_none_of {α β : Type} (l : List α) (f : α → Option β)
    (h : ∀ x ∈ l, f x = none) : l.findSome? f = none := by
  induction l with
  | nil => rfl
  | cons x rest ih =>
    have hx := h x (by simp)
    simp only [List.findSome?, hx]
    exact ih (fun y hy => h y (by simp [hy]))

theorem findSome?_unique {α β : Type} (l : List α) (f : α → Option β) (a : α)
    (b : β) (ha : a ∈ l) (hfa : f a = some b)
    (huniq : ∀ x ∈ l, f x ≠ none → x = a) :
    l.findSome? f = some b := by
  induction l with
  | nil => simp at ha
  | cons x rest ih =>
    rcases List.mem_cons.mp ha with hax | hamem
    · subst hax
      simp [List.findSome?, hfa]
    · by_cases hfx : f x = none
      · simp only [List.findSome?, hfx]
        exact ih hamem (fun y hy hne => huniq y (by simp [hy]) hne)
      · have hxa : x = a := huniq x (by simp) hfx
        subst hxa
        simp [List.findSome?, hfa]

/-- Reading the success map after the collection fold: the last delivered
success for the key wins, otherwise the initial state's entry remains. -/
theorem collect_fileResults_lookup (names : Nat → String) :
    ∀ (A : List (Nat × Except String AnalysisResponse)) (s : CollectState) (i : Nat),
      mapLookup ((A.foldl (collectStep names) s).fileResults) i =
        match findOk A i with
        | some r => some r
        | none => mapLookup s.fileResults i := by
  intro A
  induction A with
  | nil => intro s i; rfl
  | cons a rest ih =>
    intro s i
    have hstep : mapLookup ((collectStep names s a).fileResults) i =
        match okAt i a with
        | some r => some r
        | none => mapLookup s.fileResults i := by
      rcases a with ⟨j, r⟩
      cases r with
      | error e => rfl
      | ok resp =>
        simp only [collectStep, okAt, mapLookup_insert]
        by_cases hj : j = i <;> simp [hj]
    have hrev : findOk (a :: rest) i =
        match findOk rest i with
        | some r => some r
        | none => okAt i a := by
      simp only [findOk, List.reverse_cons, findSome?_concat]
      cases rest.reverse.findSome? (okAt i) with
      | none =>
        simp only [List.findSome?]
        cases okAt i a <;> rfl
      | some r => rfl
    rw [List.foldl_cons, ih (collectStep names s a) i, hrev]
    cases hfo : findOk rest i with
    | some r => rfl
    | none =>
      simp only []
      rw [hstep]

/-- Reading the failure map after the collection fold. -/
theorem collect_failedFiles_lookup (names : Nat → String) :
    ∀ (A : List (Nat × Except String AnalysisResponse)) (s : CollectState) (i : Nat),
      mapLookup ((A.foldl (collectStep names) s).failedFiles) i =
        match findErr A i with
        | some e => some e
        | none => mapLookup s.failedFiles i := by
  intro A
  induction A with
  | nil => intro s i; rfl
  | cons a rest ih =>
    intro s i
    have hstep : mapLookup ((collectStep names s a).failedFiles) i =
        match errAt i a with
        | some e => some e
        | none => mapLookup s.failedFiles i := by
      rcases a with ⟨j, r⟩
      cases r with
      | ok resp => rfl
      | error e =>
        simp only [collectStep, errAt, mapLookup_insert]
        by_cases hj : j = i <;> simp [hj]
    have hrev : findErr (a :: rest) i =
        match findErr rest i with
        | some e => some e
        | none => errAt i a := by
      simp only [findErr, List.reverse_cons, findSome?_concat]
      cases rest.reverse.findSome? (errAt i) with
      | none =>
        simp only [List.findSome?]
        cases errAt i a <;> rfl
      | some e => rfl
    rw [List.foldl_cons, ih (collectStep names s a) i, hrev]
    cases hfo : findErr rest i with
    | some e => rfl
    | none =>
      simp only []
      rw [hstep]

/-- With no errors delivered, the failure map never grows. -/
theorem collect_failed_nil (names : Nat → String) :
    ∀ (A : List (Nat × Except String AnalysisResponse)) (s : CollectState),
      (∀ r ∈ A, isErr r = false) →
      (A.foldl (collectStep names) s).failedFiles = s.failedFiles := by
  intro A
  induction A with
  | nil => intro s _; rfl
  | cons a rest ih =>
    intro s h
    have ha := h a (by simp)
    have hstep : (collectStep names s a).failedFiles = s.failedFiles := by
      rcases a with ⟨j, r⟩
      cases r with
      | ok resp => rfl
      | error e => simp [isErr] at ha
    rw [List.foldl_cons, ih (collectStep names s a) (fun r hr => h r (by simp [hr]))]
    rw [hstep]

/-- With pairwise-distinct keys disjoint from the initial failure map, the
final failure map has one entry per delivered error. -/
theorem collect_failed_length (names : Nat → String) :
    ∀ (A : List (Nat × Except String AnalysisResponse)) (s : CollectState),
      (A.map Prod.fst).Nodup →
      (∀ k ∈ s.failedFiles.map Prod.fst, k ∉ A.map Prod.fst) →
      ((A.foldl (collectStep names) s).failedFiles).length =
        s.failedFiles.length + A.countP isErr := by
  intro A
  induction A with
  | nil => intro s _ _; simp
  | cons a rest ih =>
    intro s hnd hdisj
    simp only [List.map_cons, List.nodup_cons] at hnd
    obtain ⟨hhead, hnd'⟩ := hnd
    have hdisj' : ∀ k ∈ s.failedFiles.map Prod.fst, k ∉ rest.map Prod.fst := by
      intro k hk hmem
      exact hdisj k hk (by simp [hmem])
    rcases a with ⟨j, r⟩
    cases r with
    | ok resp =>
      rw [List.foldl_cons]
      have hstep : (collectStep names s (j, .ok resp)).failedFiles =
          s.failedFiles := rfl
      rw [ih (collectStep names s (j, .ok resp)) hnd' (by rw [hstep]; exact hdisj'),
        hstep]
      simp [List.countP_cons, isErr]
    | error e =>
      have hjnew : j ∉ s.failedFiles.map Prod.fst := by
        intro hj
        exact hdisj j hj (by simp)
      rw [List.foldl_cons]
      have hstep : (collectStep names s (j, .error e)).failedFiles =
          mapInsert s.failedFiles j e := rfl
      have hd2 : ∀ k ∈ (mapInsert s.failedFiles j e).map Prod.fst,
          k ∉ rest.map Prod.fst := by
        intro k hk
        rcases mapInsert_keys _ _ _ _ hk with hk1 | hk1
        · exact hdisj' k hk1
        · subst hk1
          exact hhead
      rw [ih (collectStep names s (j, .error e)) hnd' (by rw [hstep]; exact hd2),
        hstep, mapInsert_length_new _ _ _ hjnew]
      simp [List.countP_cons, isErr]
      omega

/-- Membership in the numbered queue, characterised by key arithmetic. -/
theorem numberFrom_mem {α : Type} :
    ∀ (L : List α) (s : Nat) (p : Nat × α),
      p ∈ numberFrom s L ↔ (s ≤ p.1 ∧ L.get? (p.1 - s) = some p.2) := by
  intro L
  induction L with
  | nil =>
    intro s p
    simp [numberFrom]
  | cons x rest ih =>
    intro s p
    simp only [numberFrom, List.mem_cons, ih (s + 1) p]
    constructor
    · rintro (rfl | ⟨h1, h2⟩)
      · simp
      · refine ⟨by omega, ?_⟩
        have : p.1 - s = (p.1 - (s + 1)) + 1 := by omega
        rw [this]
        simpa using h2
    · rintro ⟨h1, h2⟩
      by_cases hs : p.1 = s
      · left
        rw [hs] at h2
        simp at h2
        rcases p with ⟨p1, p2⟩
        simp at hs h2 ⊢
        exact ⟨hs, h2.symm⟩
      · right
        refine ⟨by omega, ?_⟩
        have : p.1 - s = (p.1 - (s + 1)) + 1 := by omega
        rw [this] at h2
        simpa using h2

/-- Every key in the numbered queue is at least the starting number. -/
theorem numberFrom_key_ge {α : Type} (L : List α) (s : Nat)
    (p : Nat × α) (hp : p ∈ numberFrom s L) : s ≤ p.1 :=
  ((numberFrom_mem L s p).mp hp).1

/-- The numbered queue has pairwise-distinct keys. -/
theorem numberFrom_keys_nodup {α : Type} :
    ∀ (L : List α) (s : Nat), ((numberFrom s L).map Prod.fst).Nodup := by
  intro L
  induction L with
  | nil => intro s; simp [numberFrom]
  | cons x rest ih =>
    intro s
    simp only [numberFrom, List.map_cons, List.nodup_cons]
    refine ⟨?_, ih (s + 1)⟩
    intro hmem
    rcases List.mem_map.mp hmem with ⟨p, hp, hps⟩
    have := numberFrom_key_ge rest (s + 1) p hp
    omega

theorem numberFrom_length {α : Type} :
    ∀ (L : List α) (s : Nat), (numberFrom s L).length = L.length := by
  intro L
  induction L with
  | nil => intro s; rfl
  | cons x rest ih => intro s; simp [numberFrom, ih (s + 1)]

/-- The ordered response list of the sequential loop is one section per
batch, in batch order. -/
theorem seqLoop_responses (P : List (Option FileInfo) → Except String AnalysisResponse) :
    ∀ (batches : List (List (Option FileInfo))) (acc : List String) (tt td : Nat)
      (m : String),
      (seqLoop P batches acc tt td m).1 = acc ++ batches.map (seqSection P) := by
  intro batches
  induction batches with
  | nil => intro acc tt td m; simp [seqLoop]
  | cons b rest ih =>
    intro acc tt td m
    simp only [seqLoop]
    cases hPb : P b with
    | error e =>
      rw [ih]
      simp [seqSection, hPb]
    | ok r =>
      rw [ih]
      simp [seqSection, hPb]

theorem filterMap_eq_map_of {α β : Type} (l : List α) (g : α → Option β)
    (f : α → β) (H : ∀ x ∈ l, g x = some (f x)) : l.filterMap g = l.map f := by
  induction l with
  | nil => rfl
  | cons x rest ih =>
    rw [List.filterMap_cons, H x (by simp), List.map_cons,
      ih (fun y hy => H y (by simp [hy]))]

theorem range_map_getD {α β : Type} (d : α) (f : α → β) :
    ∀ (L : List α),
      (List.range L.length).map (fun k => f (L.getD k d)) = L.map f
  | [] => rfl
  | x :: rest => by
    rw [List.length_cons, List.range_succ_eq_map, List.map_cons, List.map_map]
    have h2 : ((fun k => f ((x :: rest).getD k d)) ∘ Nat.succ) =
        fun k => f (rest.getD k d) := rfl
    rw [h2, range_map_getD d f rest]
    rfl

/-- In-order aggregation over any arrival permutation of the canonical
outcomes produces exactly the per-unit sections in original order. -/
theorem aggregate_perm_eq (be : Backend) (v : Validator) (tokenLimit : Nat)
    (temperature : Rat) (task : String)
    (batches : List (List (Option FileInfo)))
    (arrival : List (Nat × Except String AnalysisResponse))
    (harr : arrival.Perm (batchResults be v tokenLimit temperature task batches)) :
    aggregateResponses (collectResults (fileNamesOf batches) arrival)
        (fileNamesOf batches) batches.length =
      batches.map (seqSection (processBatch be v tokenLimit temperature task)) := by
  rw [aggregateResponses]
  rw [filterMap_eq_map_of _ _
    (fun k => seqSection (processBatch be v tokenLimit temperature task)
      (batches.getD k []))]
  · exact range_map_getD [] _ batches
  · intro k hk
    have hlt : k < batches.length := List.mem_range.mp hk
    have hget : batches.get? k = some (batches.get ⟨k, hlt⟩) := List.get?_eq_get hlt
    set bk := batches.get ⟨k, hlt⟩ with hbk
    have hgetD : batches.getD k [] = bk := by
      simp [List.getD, List.getElem?_eq_getElem hlt, hbk]
    have hname : fileNamesOf batches (k + 1) = batch0RelPath bk := by
      have h1 : k + 1 - 1 = k := by omega
      simp only [fileNamesOf, h1, hget]
    have hmem_canon : (k + 1,
        processBatch be v tokenLimit temperature task bk) ∈
        batchResults be v tokenLimit temperature task batches := by
      rw [batchResults]
      apply (numberFrom_mem _ _ _).mpr
      refine ⟨by omega, ?_⟩
      have h1 : k + 1 - 1 = k := by omega
      rw [h1, List.get?_map, hget]
      rfl
    have huniq : ∀ x ∈ arrival, x.1 = k + 1 →
        x = (k + 1, processBatch be v tokenLimit temperature task bk) := by
      intro x hx hx1
      have hxc : x ∈ batchResults be v tokenLimit temperature task batches :=
        (harr.mem_iff).mp hx
      rw [batchResults] at hxc
      obtain ⟨_, h2⟩ := (numberFrom_mem _ _ _).mp hxc
      rw [hx1] at h2
      have h1 : k + 1 - 1 = k := by omega
      rw [h1, List.get?_map, hget] at h2
      simp at h2
      rcases x with ⟨j, rx⟩
      simp at hx1
      subst hx1
      simp at h2 ⊢
      exact h2.symm
    cases hPb : processBatch be v tokenLimit temperature task bk with
    | ok r =>
      have hfind : findOk arrival (k + 1) = some r := by
        apply findSome?_unique arrival.reverse (okAt (k + 1))
          (k + 1, processBatch be v tokenLimit temperature task bk) r
        · rw [List.mem_reverse]
          exact (harr.mem_iff).mpr hmem_canon
        · simp [okAt, hPb]
        · intro x hx hne
          have hxmem : x ∈ arrival := List.mem_reverse.mp hx
          rcases x with ⟨j, rx⟩
          cases rx with
          | error e' => simp [okAt] at hne
          | ok r' =>
            have hj : j = k + 1 := by
              by_contra hjj
              simp [okAt, hjj] at hne
            subst hj
            exact huniq _ hxmem rfl
      have hlook := collect_fileResults_lookup (fileNamesOf batches) arrival
        collectInit (k + 1)
      rw [hfind] at hlook
      simp only [collectResults]
      rw [hlook, hname, hgetD]
      simp [seqSection, hPb]
    | error e =>
      have hnone : findOk arrival (k + 1) = none := by
        apply findSome?_eq_none_of
        intro x hx
        have hxmem : x ∈ arrival := List.mem_reverse.mp hx
        rcases x with ⟨j, rx⟩
        cases rx with
        | error e' => rfl
        | ok r' =>
          by_cases hj : j = k + 1
          · subst hj
            have := huniq _ hxmem rfl
            simp [hPb] at this
          · simp [okAt, hj]
      have hfind : findErr arrival (k + 1) = some e := by
        apply findSome?_unique arrival.reverse (errAt (k + 1))
          (k + 1, processBatch be v tokenLimit temperature task bk) e
        · rw [List.mem_reverse]
          exact (harr.mem_iff).mpr hmem_canon
        · simp [errAt, hPb]
        · intro x hx hne
          have hxmem : x ∈ arrival := List.mem_reverse.mp hx
          rcases x with ⟨j, rx⟩
          cases rx with
          | ok r' => simp [errAt] at hne
          | error e' =>
            have hj : j = k + 1 := by
              by_contra hjj
              simp [errAt, hjj] at hne
            subst hj
            exact huniq _ hxmem rfl
      have hlookOk := collect_fileResults_lookup (fileNamesOf batches) arrival
        collectInit (k + 1)
      rw [hnone] at hlookOk
      have hlookErr := collect_failedFiles_lookup (fileNamesOf batches) arrival
        collectInit (k + 1)
      rw [hfind] at hlookErr
      simp only [collectResults]
      rw [hlookOk]
      have hinit : mapLookup collectInit.fileResults (k + 1) = none := rfl
      rw [hinit, hlookErr, hname, hgetD]
      simp [seqSection, hPb]

/-- C1 (amended): with every unit succeeding, the worker-pool path yields
the same response text as the sequential path for every arrival order of
the results channel.  (The per-file token map is not part of this
equality: the sequential path leaves it empty.) -/
theorem C1_seq_conc_response (be : Backend) (v : Validator) (tokenLimit : Nat)
    (temperature : Rat) (task : String)
    (batches : List (List (Option FileInfo)))
    (arrival : List (Nat × Except String AnalysisResponse))
    (harr : arrival.Perm (batchResults be v tokenLimit temperature task batches))
    (hok : ∀ b ∈ batches,
      exceptOk (processBatch be v tokenLimit temperature task b) = true) :
    (processConcurrently be v tokenLimit temperature task batches arrival).response =
      (processSequentially be v tokenLimit temperature task batches).response := by
  have hnoerr : ∀ r ∈ arrival, isErr r = false := by
    intro r hr
    have hrc : r ∈ batchResults be v tokenLimit temperature task batches :=
      (harr.mem_iff).mp hr
    rw [batchResults] at hrc
    obtain ⟨_, h2⟩ := (numberFrom_mem _ _ _).mp hrc
    rw [List.get?_map] at h2
    cases hb : batches.get? (r.1 - 1) with
    | none => rw [hb] at h2; simp at h2
    | some b =>
      rw [hb] at h2
      simp at h2
      have hbmem : b ∈ batches := List.get?_mem hb
      have hokb := hok b hbmem
      cases hPb : processBatch be v tokenLimit temperature task b with
      | error e => rw [hPb] at hokb; simp [exceptOk] at hokb
      | ok resp =>
        rw [hPb] at h2
        simp [isErr, ← h2]
  have hfailed : (collectResults (fileNamesOf batches) arrival).failedFiles = [] := by
    have := collect_failed_nil (fileNamesOf batches) arrival collectInit hnoerr
    simpa [collectResults, collectInit] using this
  simp only [processConcurrently, processSequentially, hfailed]
  rw [aggregate_perm_eq be v tokenLimit temperature task batches arrival harr]
  rw [seqLoop_responses]
  simp

/-- C7 (amended, worker-pool path): when the canonical outcomes of five
units contain exactly one failure, the aggregated response of
`processConcurrently` is the failure summary "1 of 5 files failed"
followed by one section per unit at its original position (failure
section for the failed unit, success sections for the rest), for every
arrival order. -/
theorem C7_partial_failure (be : Backend) (v : Validator) (tokenLimit : Nat)
    (temperature : Rat) (task : String)
    (batches : List (List (Option FileInfo)))
    (arrival : List (Nat × Except String AnalysisResponse))
    (h5 : batches.length = 5)
    (harr : arrival.Perm (batchResults be v tokenLimit temperature task batches))
    (hfail : (batchResults be v tokenLimit temperature task batches).countP isErr = 1) :
    (processConcurrently be v tokenLimit temperature task batches arrival).response =
      "⚠️  Warning: 1 of 5 files failed (see details below)\n" ++
        goJoin "\n" (batches.map
          (seqSection (processBatch be v tokenLimit temperature task))) := by
  have hnodup : (arrival.map Prod.fst).Nodup := by
    have hperm := harr.map Prod.fst
    apply (hperm.nodup_iff).mpr
    rw [batchResults]
    exact numberFrom_keys_nodup _ 1
  have hcount : arrival.countP isErr = 1 := by
    rw [harr.countP_eq isErr]
    exact hfail
  have hlen : (collectResults (fileNamesOf batches) arrival).failedFiles.length = 1 := by
    have := collect_failed_length (fileNamesOf batches) arrival collectInit hnodup
      (by intro k hk; simp [collectInit] at hk)
    simpa [collectResults, collectInit, hcount] using this
  simp only [processConcurrently, hlen]
  rw [if_pos (by omega : 1 > 0)]
  rw [aggregate_perm_eq be v tokenLimit temperature task batches arrival harr]
  rw [h5]
  congr 1

set_option maxRecDepth 600000 in
/-- C1 (counterexample): for two single-file units against a
deterministic all-success backend, the sequential path (C=1) and the
worker-pool path (C=4, canonical arrival) produce the same response text
but different per-file token maps: `processSequentially` leaves
`FileTokens` at its zero value while `processConcurrently` populates it,
so the two AggregatedResults are not identical. -/
theorem C1_counterexample :
    (processSequentially beOk V0 1000 0 "t" batches2).response =
      (processConcurrently beOk V0 1000 0 "t" batches2
        (batchResults beOk V0 1000 0 "t" batches2)).response ∧
    (processSequentially beOk V0 1000 0 "t" batches2).fileTokens ≠
      (processConcurrently beOk V0 1000 0 "t" batches2
        (batchResults beOk V0 1000 0 "t" batches2)).fileTokens := by
  constructor
  · decide
  · decide

set_option maxRecDepth 600000 in
theorem C1_seq_conc_response_witness :
    (processConcurrently beOk V0 1000 0 "t" batches2
        ((batchResults beOk V0 1000 0 "t" batches2).reverse)).response =
      (processSequentially beOk V0 1000 0 "t" batches2).response :=
  C1_seq_conc_response beOk V0 1000 0 "t" batches2 _ (List.reverse_perm _)
    (by decide)

set_option maxRecDepth 600000 in
/-- C7 (counterexample): five single-file units of which exactly one
fails, dispatched through the sequential path: the aggregated response
contains no "1 of 5 files failed" summary line, contradicting the claim
for dispatches run at C=1. -/
theorem C7_counterexample :
    (batchResults beFail3 V0 1000 0 "t" batches5).length = 5 ∧
    (batchResults beFail3 V0 1000 0 "t" batches5).countP isErr = 1 ∧
    goContains (processSequentially beFail3 V0 1000 0 "t" batches5).response
      "1 of 5 files failed" = false := by
  refine ⟨by decide, by decide, by decide⟩

set_option maxRecDepth 600000 in
theorem C7_partial_failure_witness :
    (processConcurrently beFail3 V0 1000 0 "t" batches5
        ((batchResults beFail3 V0 1000 0 "t" batches5).reverse)).response =
      "⚠️  Warning: 1 of 5 files failed (see details below)\n" ++
        goJoin "\n" (batches5.map
          (seqSection (processBatch beFail3 V0 1000 0 "t"))) :=
  C7_partial_failure beFail3 V0 1000 0 "t" batches5 _ (by decide)
    (List.reverse_perm _) (by decide)

end LocalAgent
